import Mathlib

/-!
Z80FS: on-disk format and file engine.

A shallow embedding of the Z80FS headers (z80fs.h, fileio.h, blockio.h): the
constants and macros of z80fs.h, the four node structs with their byte layout
and the error enumeration of fileio.h, with the properties of the format that
follow from them. The sources are headers only: the file engine behind
fileio.h, the directory engine, the block allocator and the medium behind
blockio.h are modelled from the specification, and the round trip of a file
through create, write, close, open and read is proved on that model.
-/

namespace Z80FS

/-! ## z80fs.h: constants -/

/-- Z80FS version number. -/
def Z80FS_VER1 : Nat := 0x01

/-- Block size class, 32 byte. -/
def Z80FS_BS32 : Nat := 0x01
/-- Block size class, 64 byte. -/
def Z80FS_BS64 : Nat := 0x02
/-- Block size class, 128 byte. -/
def Z80FS_BS128 : Nat := 0x03
/-- Block size class, 256 byte. -/
def Z80FS_BS256 : Nat := 0x04
/-- Block size class, 512 byte. -/
def Z80FS_BS512 : Nat := 0x05
/-- Block size class, 1024 byte. -/
def Z80FS_BS1024 : Nat := 0x06

/-- The enumerated block size classes, in declaration order. -/
def blockSizeClasses : List Nat :=
  [Z80FS_BS32, Z80FS_BS64, Z80FS_BS128, Z80FS_BS256, Z80FS_BS512, Z80FS_BS1024]

/-- The macro Z80FS_GET_BLOCKSIZE(x), defined as (1 << (x + 4)). -/
def Z80FS_GET_BLOCKSIZE (x : Nat) : Nat := 1 <<< (x + 4)

/-- Block is empty. -/
def Z80FS_FNODE_EMPTY : Nat := 0xFF
/-- Block is a file. -/
def Z80FS_FNODE_FILE : Nat := 0x01
/-- Block is a file extend. -/
def Z80FS_FNODE_FEXTEND : Nat := 0x02
/-- Block is a directory. -/
def Z80FS_FNODE_DIRECTORY : Nat := 0x03
/-- Block is a directory extend. -/
def Z80FS_FNODE_DIREXTEND : Nat := 0x04

/-- Block number of the superblock. -/
def Z80FS_SUPERBLOCK : Nat := 0
/-- Block number of the root directory. -/
def Z80FS_ROOT_DIR : Nat := 1

/-- Maximal file or directory name length. -/
def Z80FS_NAME_SIZE : Nat := 12

/-- Value for empty, unused or unavailable. -/
def Z80FS_EMPTY : Nat := 0

/-! ## C types and struct layout -/

/-- The C types that occur as struct members in z80fs.h. -/
inductive CType where
  | uint8_t
  | uint16_t
  | charArray (n : Nat)
  deriving DecidableEq, Repr

/-- The typedef of z80fs.h: block_t is uint16_t. -/
def block_t : CType := CType.uint16_t

/-- Size of a C type in bytes. -/
def CType.size : CType → Nat
  | .uint8_t => 1
  | .uint16_t => 2
  | .charArray n => n

/-- Natural alignment of a C type (an ABI where a 16-bit integer is 2-aligned). -/
def CType.naturalAlign : CType → Nat
  | .uint8_t => 1
  | .uint16_t => 2
  | .charArray _ => 1

/-- Packed layout: every member is 1-aligned. This is the layout of the Z80
target and the one the offset comments of z80fs.h describe. -/
def packedAlign : CType → Nat := fun _ => 1

/-- Values a C type can hold: an unsigned integer of 8 * size bits. -/
def CType.holds (t : CType) (v : Nat) : Prop := v < 2 ^ (8 * t.size)

instance (t : CType) (v : Nat) : Decidable (t.holds v) := by
  unfold CType.holds; infer_instance

/-- Member names of the structs of z80fs.h. -/
inductive Member where
  | fs_type | blk_size | first_block | num_blocks | name
  | type | extend | attributes | size | parent | reserved1
  deriving DecidableEq, Repr

/-- A struct declaration: its members in declaration order. -/
abbrev Struct := List (Member × CType)

/-- Superblock, z80fs_super_t. -/
def z80fs_super_t : Struct :=
  [ (.fs_type, .uint8_t),
    (.blk_size, .uint8_t),
    (.first_block, block_t),
    (.num_blocks, block_t),
    (.name, .charArray Z80FS_NAME_SIZE) ]

/-- File node, z80fs_file_t. -/
def z80fs_file_t : Struct :=
  [ (.type, .uint8_t),
    (.extend, block_t),
    (.name, .charArray Z80FS_NAME_SIZE),
    (.attributes, .uint8_t),
    (.size, .uint16_t) ]

/-- Directory node, z80fs_dir_t. -/
def z80fs_dir_t : Struct :=
  [ (.type, .uint8_t),
    (.extend, block_t),
    (.name, .charArray Z80FS_NAME_SIZE),
    (.attributes, .uint8_t),
    (.parent, block_t) ]

/-- File or directory extend, z80fs_extend_t. -/
def z80fs_extend_t : Struct :=
  [ (.type, .uint8_t),
    (.extend, block_t),
    (.reserved1, .uint8_t) ]

/-- Round an offset up to a multiple of the alignment. -/
def alignUp (off a : Nat) : Nat := (off + a - 1) / a * a

/-- Offsets of the members of a struct laid out from offset off in declaration
order, each member at the next offset its alignment allows. -/
def layoutFrom (al : CType → Nat) (off : Nat) : Struct → List (Member × Nat × CType)
  | [] => []
  | (m, t) :: rest =>
    (m, alignUp off (al t), t) :: layoutFrom al (alignUp off (al t) + t.size) rest

/-- Offset just behind the last member. -/
def endFrom (al : CType → Nat) (off : Nat) : Struct → Nat
  | [] => off
  | (_, t) :: rest => endFrom al (alignUp off (al t) + t.size) rest

/-- Alignment of the struct: the largest member alignment. -/
def structAlign (al : CType → Nat) (s : Struct) : Nat :=
  (s.map (fun p => al p.2)).foldl max 1

/-- The sizeof of a struct under an alignment rule. -/
def sizeofWith (al : CType → Nat) (s : Struct) : Nat :=
  alignUp (endFrom al 0 s) (structAlign al s)

/-- The offsetof of a member under an alignment rule. -/
def offsetofWith (al : CType → Nat) (s : Struct) (m : Member) : Option Nat :=
  ((layoutFrom al 0 s).find? (fun e => e.1 = m)).map (fun e => e.2.1)

/-- First and last byte offset a member occupies under an alignment rule. -/
def bytesOfWith (al : CType → Nat) (s : Struct) (m : Member) : Option (Nat × Nat) :=
  ((layoutFrom al 0 s).find? (fun e => e.1 = m)).map
    (fun e => (e.2.1, e.2.1 + e.2.2.size - 1))

/-- The sizeof of a struct on the Z80 target (packed). -/
def sizeof (s : Struct) : Nat := sizeofWith packedAlign s

/-- The offsetof of a member on the Z80 target (packed). -/
def offsetof (s : Struct) (m : Member) : Option Nat := offsetofWith packedAlign s m

/-- First and last byte of a member on the Z80 target (packed). -/
def bytesOf (s : Struct) (m : Member) : Option (Nat × Nat) := bytesOfWith packedAlign s m

/-! ## z80fs.h: address macros

An argument is the byte address of a block buffer; the result is a byte address. -/

/-- Address of the first entry in a directory: dir + sizeof(z80fs_dir_t). -/
def Z80FS_FIRST_DIR_ENTRY (dir : Nat) : Nat := dir + sizeof z80fs_dir_t

/-- Address of the first entry in a directory extend: ext + sizeof(z80fs_extend_t). -/
def Z80FS_FIRST_EXT_ENTRY (ext : Nat) : Nat := ext + sizeof z80fs_extend_t

/-- Address of the first byte in a file: f + sizeof(z80fs_file_t). -/
def Z80FS_FIRST_FILE_BYTE (f : Nat) : Nat := f + sizeof z80fs_file_t

/-- Address of the first byte in a file extend: f + sizeof(z80fs_extend_t). -/
def Z80FS_FIRST_EXT_BYTE (f : Nat) : Nat := f + sizeof z80fs_extend_t

/-- The same macro under an arbitrary alignment rule. -/
def firstExtByteWith (al : CType → Nat) (f : Nat) : Nat := f + sizeofWith al z80fs_extend_t

/-! ## Block buffers and member access -/

/-- A block buffer (uint8_t block_data[BYTE_BLOCK_SIZE]): byte offset to byte. -/
abbrev Buffer := Nat → Nat

/-- The len bytes of a buffer from offset off. -/
def readBytes (buf : Buffer) (off len : Nat) : List Nat :=
  (List.range len).map (fun i => buf (off + i))

/-- Little-endian value of a byte sequence. -/
def leValue : List Nat → Nat
  | [] => 0
  | b :: rest => b + 256 * leValue rest

/-- The bytes of member m when the buffer is interpreted as struct s. -/
def readMember (s : Struct) (m : Member) (buf : Buffer) : Option (List Nat) :=
  ((layoutFrom packedAlign 0 s).find? (fun e => e.1 = m)).map
    (fun e => readBytes buf e.2.1 e.2.2.size)

/-- The integer value of member m when the buffer is interpreted as struct s. -/
def readInt (s : Struct) (m : Member) (buf : Buffer) : Option Nat :=
  (readMember s m buf).map leValue

/-! ## fileio.h: entry types and error codes -/

/-- Entry type file. -/
def ENTRY_FILE : Nat := Z80FS_FNODE_FILE
/-- Entry type directory. -/
def ENTRY_DIR : Nat := Z80FS_FNODE_DIRECTORY

/-- File is opened for reading. -/
def MODE_READ : Nat := 0x00
/-- File is opened for writing. -/
def MODE_WRITE : Nat := 0x01

/-- The error return values, enum fserror. -/
inductive error_t where
  | Z80FS_OK
  | Z80FS_E_IO
  | Z80FS_E_NODIR
  | Z80FS_E_NOTFOUND
  | Z80FS_E_FSBROKEN
  | Z80FS_E_EXISTS
  | Z80FS_E_FULL
  | Z80FS_E_INVALID
  | Z80FS_E_EOF
  | Z80FS_E_NAME
  | Z80FS_E_NOFILE
  | Z80FS_E_NOTEMPTY
  deriving DecidableEq, Repr, Fintype

/-- The integer code of each enumerator. -/
def error_t.code : error_t → Int
  | .Z80FS_OK => 0x00
  | error_t.Z80FS_E_IO => -0x01
  | .Z80FS_E_NODIR => -0x02
  | .Z80FS_E_NOTFOUND => -0x03
  | .Z80FS_E_FSBROKEN => -0x04
  | .Z80FS_E_EXISTS => -0x05
  | .Z80FS_E_FULL => -0x06
  | .Z80FS_E_INVALID => -0x07
  | .Z80FS_E_EOF => -0x08
  | .Z80FS_E_NAME => -0x09
  | .Z80FS_E_NOFILE => -0x0A
  | .Z80FS_E_NOTEMPTY => -0x0B

/-- The error kinds as the specification lists them (one flat taxonomy of
eleven kinds). This definition follows the words of the specification; it is
compared with error_t, which follows the source. -/
inductive ErrorKind where
  | ok
  | io_error
  | not_a_directory
  | not_found
  | structural_error
  | already_exists
  | out_of_space
  | invalid_argument
  | end_of_file
  | not_a_file
  | not_empty
  deriving DecidableEq, Repr, Fintype

/-- The enumerator of error_t that carries each kind of the specification,
matched by the comment of the enumerator (invalid-argument is read as
Z80FS_E_INVALID, commented as invalid function). -/
def ErrorKind.enumerator : ErrorKind → error_t
  | .ok => .Z80FS_OK
  | .io_error => error_t.Z80FS_E_IO
  | .not_a_directory => .Z80FS_E_NODIR
  | .not_found => .Z80FS_E_NOTFOUND
  | .structural_error => .Z80FS_E_FSBROKEN
  | .already_exists => .Z80FS_E_EXISTS
  | .out_of_space => .Z80FS_E_FULL
  | .invalid_argument => .Z80FS_E_INVALID
  | .end_of_file => .Z80FS_E_EOF
  | .not_a_file => .Z80FS_E_NOFILE
  | .not_empty => .Z80FS_E_NOTEMPTY


/-! ## Block device port (blockio.h)

blockio.h only declares the four port functions; the medium behind them is
modelled as an array of blocks held in memory. The block size BYTE_BLOCK_SIZE
comes from config.h, which is not part of the sources: it is the parameter B
of the functions below. -/

/-- Modelled from the spec: the medium behind the block device port (the port is
implemented outside the repository): the number of blocks of the device and
the contents of each. -/
structure Medium where
  size : Nat
  data : Nat → Buffer

/-- The medium with the contents of one block replaced. -/
def Medium.put (m : Medium) (block_num : Nat) (src : Buffer) : Medium :=
  { m with data := Function.update m.data block_num src }

/-- Modelled from the spec: the port function readBlock (declared in blockio.h,
implemented outside the repository). Reads one block; fails past the device. -/
def readBlock (m : Medium) (block_num : Nat) : Option Buffer :=
  if block_num < m.size then some (m.data block_num) else none

/-- Modelled from the spec: the port function writeBlock (declared in
blockio.h, implemented outside the repository). Writes one block. -/
def writeBlock (m : Medium) (block_num : Nat) (src : Buffer) : Option Medium :=
  if block_num < m.size then some (m.put block_num src) else none

/-- Modelled from the spec: the port function getBlockType (declared in
blockio.h, implemented outside the repository). The type tag is the leading
byte of the block. -/
def getBlockType (m : Medium) (block_num : Nat) : Option Nat :=
  if block_num < m.size then some (m.data block_num 0) else none

/-- Modelled from the spec: the port function clearBlock (declared in
blockio.h, implemented outside the repository). Resets the type tag of the
block to empty. -/
def clearBlock (m : Medium) (block_num : Nat) : Option Medium :=
  if block_num < m.size then
    some (m.put block_num (Function.update (m.data block_num) 0 Z80FS_FNODE_EMPTY))
  else none

/-! ## Node codec: member access at the offsets of the struct declarations -/

/-- Offset of a member of a struct (0 when the struct has no such member). -/
def memberOffset (s : Struct) (m : Member) : Nat := (offsetof s m).getD 0

/-- Read a 16-bit little-endian integer at an offset. -/
def getU16 (buf : Buffer) (off : Nat) : Nat := buf off + 256 * buf (off + 1)

/-- Store a 16-bit little-endian integer at an offset. -/
def setU16 (buf : Buffer) (off v : Nat) : Buffer :=
  Function.update (Function.update buf off (v % 256)) (off + 1) (v / 256 % 256)

/-- Store one byte at an offset. -/
def setU8 (buf : Buffer) (off v : Nat) : Buffer := Function.update buf off (v % 256)

/-- Modelled from the spec: a name argument as the 12 bytes of the name member
(the node codec is not part of the sources): cut to Z80FS_NAME_SIZE bytes and
padded with NUL. -/
def padName (name : List Nat) : List Nat :=
  (name ++ List.replicate Z80FS_NAME_SIZE 0).take Z80FS_NAME_SIZE

/-- The name member of a file or directory node. -/
def getName (buf : Buffer) : List Nat :=
  readBytes buf (memberOffset z80fs_file_t .name) Z80FS_NAME_SIZE

/-- Modelled from the spec: the node codec storing the 12 bytes of a name into
the name member (the node codec is not part of the sources). -/
def setName (buf : Buffer) (name : List Nat) : Buffer :=
  fun i =>
    if memberOffset z80fs_file_t .name ≤ i ∧
        i < memberOffset z80fs_file_t .name + Z80FS_NAME_SIZE then
      (padName name).getD (i - memberOffset z80fs_file_t .name) 0 % 256
    else buf i

/-- The type tag of a node. -/
def getType (buf : Buffer) : Nat := buf (memberOffset z80fs_extend_t .type)

/-- The extend pointer of a node (same offset in all three node shapes). -/
def getExtend (buf : Buffer) : Nat := getU16 buf (memberOffset z80fs_extend_t .extend)

/-- Set the extend pointer of a node. -/
def setExtend (buf : Buffer) (ext : Nat) : Buffer :=
  setU16 buf (memberOffset z80fs_extend_t .extend) ext

/-- The size member of a file node. -/
def getSize (buf : Buffer) : Nat := getU16 buf (memberOffset z80fs_file_t .size)

/-- Set the size member of a file node. -/
def setSize (buf : Buffer) (size : Nat) : Buffer :=
  setU16 buf (memberOffset z80fs_file_t .size) size

/-- A zeroed block buffer. -/
def zeroBuffer : Buffer := fun _ => 0

/-- Modelled from the spec: the node codec encode of a fresh file or directory
node (the implementation is not part of the sources): type tag, no extend,
the name, attributes 0 and a 16-bit member (size or parent), no payload. -/
def encodeNode (type : Nat) (name : List Nat) (last : Nat) : Buffer :=
  setU16 (setU8 (setName (setExtend (setU8 zeroBuffer (memberOffset z80fs_file_t .type) type)
    Z80FS_EMPTY) name) (memberOffset z80fs_file_t .attributes) 0)
    (memberOffset z80fs_file_t .size) last

/-- Modelled from the spec: the node codec encode of a fresh extend node (the
implementation is not part of the sources): type tag, no further extend,
reserved byte 0, no payload. -/
def encodeExtend (type : Nat) : Buffer :=
  setU8 (setExtend (setU8 zeroBuffer (memberOffset z80fs_extend_t .type) type) Z80FS_EMPTY)
    (memberOffset z80fs_extend_t .reserved1) 0

/-! ## Block allocator -/

/-- The fs_type member of the superblock. -/
def fsType (sb : Buffer) : Nat := sb (memberOffset z80fs_super_t .fs_type)

/-- First usable block, from the superblock. -/
def firstBlock (sb : Buffer) : Nat := getU16 sb (memberOffset z80fs_super_t .first_block)

/-- Number of blocks of the medium, from the superblock. -/
def numBlocks (sb : Buffer) : Nat := getU16 sb (memberOffset z80fs_super_t .num_blocks)

/-- Modelled from the spec: the scan of the block allocator (the implementation
is not part of the sources): sequential ascending scan of count block addresses
from block on for the first one whose type reads empty. -/
def scanFree (m : Medium) : Nat → Nat → Except error_t Nat
  | 0, _ => .error error_t.Z80FS_E_FULL
  | count + 1, block =>
    match getBlockType m block with
    | none => .error error_t.Z80FS_E_IO
    | some t =>
      if t = Z80FS_FNODE_EMPTY then .ok block else scanFree m count (block + 1)

/-- Modelled from the spec: the block allocator allocate (the implementation is
not part of the sources). Scans the addresses from the first usable block of
the superblock through num_blocks - 1 and returns the first whose type reads
empty; the caller marks it non-empty by the write that follows. -/
def allocate (m : Medium) : Except error_t Nat :=
  match readBlock m Z80FS_SUPERBLOCK with
  | none => .error error_t.Z80FS_E_IO
  | some sb => scanFree m (numBlocks sb - firstBlock sb) (firstBlock sb)

/-- Modelled from the spec: the block allocator free (the implementation is not
part of the sources): the clear operation of the port. -/
def free (m : Medium) (block : Nat) : Option Medium := clearBlock m block

/-! ## Directory engine -/

/-- Modelled from the spec: the entry slots of a directory block (the directory
engine is not part of the sources): the offsets of whole slots of
sizeof(block_t) bytes from the first slot up to the block end. -/
def slotOffsets (B first : Nat) : List Nat :=
  (List.range ((B - first) / block_t.size)).map (fun i => first + block_t.size * i)

/-- Modelled from the spec: the result of a traversal of the entry slots of a
directory (the directory engine is not part of the sources): the slot found,
or the last block of the chain. -/
inductive ScanResult where
  | found (block : Nat) (buf : Buffer) (off : Nat)
  | tail (block : Nat) (buf : Buffer)

/-- Modelled from the spec: the traversal of the slots of one loaded block (the
directory engine is not part of the sources), up to the first entry that
passes the test. -/
def scanSlots (test : Nat → Except error_t Bool) (buf : Buffer) :
    List Nat → Except error_t (Option Nat)
  | [] => .ok none
  | off :: rest =>
    match test (getU16 buf off) with
    | .error e => .error e
    | .ok true => .ok (some off)
    | .ok false => scanSlots test buf rest

/-- Modelled from the spec: the traversal of a directory shared by iteration,
find and insert (the implementation is not part of the sources). Advances
across the entry slots of the loaded block; on exhausting it follows the extend
pointer to load the next block, ends at the pointer 0, and gives a structural
error when the bound on the chain length (fuel) is used up. -/
def scanDir (B : Nat) (m : Medium) (test : Nat → Except error_t Bool) :
    Nat → Nat → Buffer → Nat → Except error_t ScanResult
  | 0, block, buf, first =>
    match scanSlots test buf (slotOffsets B first) with
    | .error e => .error e
    | .ok (some off) => .ok (.found block buf off)
    | .ok none =>
      if getExtend buf = Z80FS_EMPTY then .ok (.tail block buf)
      else .error error_t.Z80FS_E_FSBROKEN
  | fuel + 1, block, buf, first =>
    match scanSlots test buf (slotOffsets B first) with
    | .error e => .error e
    | .ok (some off) => .ok (.found block buf off)
    | .ok none =>
      if getExtend buf = Z80FS_EMPTY then .ok (.tail block buf)
      else
        match readBlock m (getExtend buf) with
        | none => .error error_t.Z80FS_E_IO
        | some next => scanDir B m test fuel (getExtend buf) next (Z80FS_FIRST_EXT_ENTRY 0)

/-- Modelled from the spec: the traversal of the directory at dir_block from its
head node (the directory engine is not part of the sources), the chain length
bounded by num_blocks of the superblock. -/
def scanDirectory (B : Nat) (m : Medium) (test : Nat → Except error_t Bool)
    (dir_block : Nat) : Except error_t ScanResult :=
  match readBlock m Z80FS_SUPERBLOCK with
  | none => .error error_t.Z80FS_E_IO
  | some sb =>
    match readBlock m dir_block with
    | none => .error error_t.Z80FS_E_IO
    | some buf => scanDir B m test (numBlocks sb) dir_block buf (Z80FS_FIRST_DIR_ENTRY 0)

/-- Modelled from the spec: the test of find (the directory engine is not part
of the sources): the slot is used and the node it addresses carries the name,
all 12 bytes compared. -/
def nameTest (m : Medium) (name : List Nat) (entry : Nat) : Except error_t Bool :=
  if entry = Z80FS_EMPTY then .ok false
  else
    match readBlock m entry with
    | none => .error error_t.Z80FS_E_IO
    | some node => .ok (decide (getName node = padName name))

/-- Modelled from the spec: the test of the search for a free slot (the
directory engine is not part of the sources): the slot is unused. -/
def freeTest (entry : Nat) : Except error_t Bool := .ok (decide (entry = Z80FS_EMPTY))

/-- Modelled from the spec: the directory engine find (the implementation is
not part of the sources). Linear scan of the directory that stops at the first
entry whose node carries the name. -/
def find (B : Nat) (m : Medium) (dir_block : Nat) (name : List Nat) : Except error_t Nat :=
  match scanDirectory B m (nameTest m name) dir_block with
  | .error e => .error e
  | .ok (.found _ buf off) => .ok (getU16 buf off)
  | .ok (.tail _ _) => .error error_t.Z80FS_E_NOTFOUND

/-- Modelled from the spec: the second half of the directory engine insert (the
implementation is not part of the sources). Places the address of a new node
into the first unused slot of the directory and its extends, else into a new
extend block linked at the tail of the chain. -/
def placeEntry (B : Nat) (m : Medium) (dir_block node_block : Nat) : error_t × Medium :=
  match scanDirectory B m freeTest dir_block with
  | .error e => (e, m)
  | .ok (.found block buf off) =>
    match writeBlock m block (setU16 buf off node_block) with
    | none => (error_t.Z80FS_E_IO, m)
    | some m1 => (error_t.Z80FS_OK, m1)
  | .ok (.tail block buf) =>
    match allocate m with
    | .error e => (e, m)
    | .ok ext =>
      match writeBlock m ext
          (setU16 (encodeExtend Z80FS_FNODE_DIREXTEND) (Z80FS_FIRST_EXT_ENTRY 0) node_block) with
      | none => (error_t.Z80FS_E_IO, m)
      | some m1 =>
        match writeBlock m1 block (setExtend buf ext) with
        | none => (error_t.Z80FS_E_IO, m1)
        | some m2 => (error_t.Z80FS_OK, m2)

/-- Modelled from the spec: the directory engine insert (the implementation is
not part of the sources). Fails when the name exists; else allocates a node
block, encodes the node into it and places its address into the directory; a
failure to place the entry frees the node block again. Returns the error code,
the medium, the node block and the encoded node. -/
def insert (B : Nat) (m : Medium) (dir_block : Nat) (name : List Nat) (type : Nat) :
    error_t × Medium × Nat × Buffer :=
  match find B m dir_block name with
  | .ok _ => (error_t.Z80FS_E_EXISTS, m, 0, zeroBuffer)
  | .error e =>
    if e ≠ error_t.Z80FS_E_NOTFOUND then (e, m, 0, zeroBuffer)
    else
      match allocate m with
      | .error e1 => (e1, m, 0, zeroBuffer)
      | .ok node_block =>
        match writeBlock m node_block
            (encodeNode type name (if type = Z80FS_FNODE_DIRECTORY then dir_block else 0)) with
        | none => (error_t.Z80FS_E_IO, m, 0, zeroBuffer)
        | some m1 =>
          match placeEntry B m1 dir_block node_block with
          | (error_t.Z80FS_OK, m2) =>
            (error_t.Z80FS_OK, m2, node_block,
              encodeNode type name (if type = Z80FS_FNODE_DIRECTORY then dir_block else 0))
          | (e2, m2) =>
            match free m2 node_block with
            | none => (error_t.Z80FS_E_IO, m2, 0, zeroBuffer)
            | some m3 => (e2, m3, 0, zeroBuffer)

/-! ## File engine (fileio.h) -/

/-- An open file, file_t of fileio.h. The pointer data_pointer into block_data
is kept as the byte offset it points to. -/
structure file_t where
  file_block : Nat
  current_block : Nat
  size : Nat
  data_pointer : Nat
  block_data : Buffer
  mode : Nat

/-- Conversion of an integer to int16_t (parameter passing and return value of
fs_read). -/
def toInt16 (x : Int) : Int := (x + 32768) % 65536 - 32768

/-- Conversion of an integer to uint16_t. -/
def toUInt16 (x : Nat) : Nat := x % 65536

/-- Modelled from the spec: the handle fs_create leaves (its implementation is
not part of the sources): write mode, size 0, the pointer at the start of the
payload of the node. -/
def writeHandle (node_block : Nat) (node : Buffer) : file_t :=
  { file_block := node_block, current_block := node_block, size := 0,
    data_pointer := Z80FS_FIRST_FILE_BYTE 0, block_data := node, mode := MODE_WRITE }

/-- Modelled from the spec: the handle fs_open leaves (its implementation is not
part of the sources): read mode, the remaining size the stored file size, the
pointer at the start of the payload of the node. -/
def readHandle (node_block : Nat) (node : Buffer) : file_t :=
  { file_block := node_block, current_block := node_block, size := getSize node,
    data_pointer := Z80FS_FIRST_FILE_BYTE 0, block_data := node, mode := MODE_READ }

/-- Modelled from the spec: fs_create (declared in fileio.h, the implementation
is not part of the sources). Inserts a file node with the name into the current
directory; the handle is in write mode with size 0 and the pointer at the start
of the payload of the node. -/
def fs_create (B : Nat) (m : Medium) (current_dir : Nat) (f : file_t) (name : List Nat) :
    error_t × Medium × file_t :=
  match insert B m current_dir name Z80FS_FNODE_FILE with
  | (error_t.Z80FS_OK, m1, node_block, node) =>
    (error_t.Z80FS_OK, m1, writeHandle node_block node)
  | (e, m1, _, _) => (e, m1, f)

/-- Modelled from the spec: fs_write_byte (declared in fileio.h, the
implementation is not part of the sources). Writes the byte at the pointer;
when the payload region of the current block is exhausted, allocates a new
extend block, links it and continues there. -/
def fs_write_byte (B : Nat) (m : Medium) (f : file_t) (b : Nat) : error_t × Medium × file_t :=
  if f.mode ≠ MODE_WRITE then (error_t.Z80FS_E_INVALID, m, f)
  else if f.data_pointer < B then
    (error_t.Z80FS_OK, m,
      { f with block_data := setU8 f.block_data f.data_pointer b,
               data_pointer := f.data_pointer + 1,
               size := toUInt16 (f.size + 1) })
  else
    match allocate m with
    | .error e => (e, m, f)
    | .ok ext =>
      match writeBlock m ext (encodeExtend Z80FS_FNODE_FEXTEND) with
      | none => (error_t.Z80FS_E_IO, m, f)
      | some m1 =>
        match writeBlock m1 f.current_block (setExtend f.block_data ext) with
        | none => (error_t.Z80FS_E_IO, m1, f)
        | some m2 =>
          (error_t.Z80FS_OK, m2,
            { f with current_block := ext,
                     block_data := setU8 (encodeExtend Z80FS_FNODE_FEXTEND)
                       (Z80FS_FIRST_EXT_BYTE 0) b,
                     data_pointer := Z80FS_FIRST_EXT_BYTE 0 + 1,
                     size := toUInt16 (f.size + 1) })

/-- Modelled from the spec: the loop of fs_write (its implementation is not part
of the sources): fs_write_byte over the bytes, stopping at the first failure. -/
def writeBytes (B : Nat) (m : Medium) (f : file_t) : List Nat → error_t × Medium × file_t
  | [] => (error_t.Z80FS_OK, m, f)
  | b :: rest =>
    match fs_write_byte B m f b with
    | (error_t.Z80FS_OK, m1, f1) => writeBytes B m1 f1 rest
    | r => r

/-- Modelled from the spec: fs_write (declared in fileio.h, the implementation
is not part of the sources). Writes the first size bytes of buf, size being a
uint16_t. -/
def fs_write (B : Nat) (m : Medium) (f : file_t) (buf : List Nat) (size : Nat) :
    error_t × Medium × file_t :=
  writeBytes B m f (buf.take (toUInt16 size))

/-- Modelled from the spec: fs_close (declared in fileio.h, the implementation
is not part of the sources). In write mode writes back the current block and
stores the accumulated size in the size member of the file node; in read mode
nothing. -/
def fs_close (m : Medium) (f : file_t) : error_t × Medium :=
  if f.mode = MODE_WRITE then
    if f.current_block = f.file_block then
      match writeBlock m f.file_block (setSize f.block_data f.size) with
      | none => (error_t.Z80FS_E_IO, m)
      | some m1 => (error_t.Z80FS_OK, m1)
    else
      match writeBlock m f.current_block f.block_data with
      | none => (error_t.Z80FS_E_IO, m)
      | some m1 =>
        match readBlock m1 f.file_block with
        | none => (error_t.Z80FS_E_IO, m1)
        | some node =>
          match writeBlock m1 f.file_block (setSize node f.size) with
          | none => (error_t.Z80FS_E_IO, m1)
          | some m2 => (error_t.Z80FS_OK, m2)
  else (error_t.Z80FS_OK, m)

/-- Modelled from the spec: fs_open (declared in fileio.h, the implementation
is not part of the sources). Finds the name in the current directory, fails
with not-a-file on a directory, else loads the node: read mode, remaining size
the stored file size, pointer at the start of the payload. -/
def fs_open (B : Nat) (m : Medium) (current_dir : Nat) (f : file_t) (name : List Nat) :
    error_t × file_t :=
  match find B m current_dir name with
  | .error e => (e, f)
  | .ok node_block =>
    match readBlock m node_block with
    | none => (error_t.Z80FS_E_IO, f)
    | some node =>
      if getType node = Z80FS_FNODE_DIRECTORY then (error_t.Z80FS_E_NOFILE, f)
      else if getType node ≠ Z80FS_FNODE_FILE then (error_t.Z80FS_E_FSBROKEN, f)
      else (error_t.Z80FS_OK, readHandle node_block node)

/-- Modelled from the spec: fs_read_byte (declared in fileio.h, the
implementation is not part of the sources). End of file when the remaining size
is 0; else the next byte of the payload, following the extend pointer when the
payload of the current block is used up (structural error on the pointer 0). -/
def fs_read_byte (B : Nat) (m : Medium) (f : file_t) : error_t × file_t × Nat :=
  if f.mode ≠ MODE_READ then (error_t.Z80FS_E_INVALID, f, 0)
  else if f.size = 0 then (error_t.Z80FS_E_EOF, f, 0)
  else if f.data_pointer < B then
    (error_t.Z80FS_OK,
      { f with data_pointer := f.data_pointer + 1, size := f.size - 1 },
      f.block_data f.data_pointer)
  else if getExtend f.block_data = Z80FS_EMPTY then (error_t.Z80FS_E_FSBROKEN, f, 0)
  else
    match readBlock m (getExtend f.block_data) with
    | none => (error_t.Z80FS_E_IO, f, 0)
    | some next =>
      (error_t.Z80FS_OK,
        { f with current_block := getExtend f.block_data,
                 block_data := next,
                 data_pointer := Z80FS_FIRST_EXT_BYTE 0 + 1,
                 size := f.size - 1 },
        next (Z80FS_FIRST_EXT_BYTE 0))

/-- Modelled from the spec: the loop of fs_read (its implementation is not part
of the sources): fs_read_byte up to count times or to the end of the file;
gives the error code that ended the loop, the handle and the bytes read. -/
def readBytesLoop (B : Nat) (m : Medium) : Nat → file_t → error_t × file_t × List Nat
  | 0, f => (error_t.Z80FS_OK, f, [])
  | count + 1, f =>
    match fs_read_byte B m f with
    | (error_t.Z80FS_OK, f1, b) =>
      match readBytesLoop B m count f1 with
      | (e, f2, bs) => (e, f2, b :: bs)
    | (e, f1, _) => (e, f1, [])

/-- Modelled from the spec: fs_read (declared in fileio.h, the implementation
is not part of the sources). Reads up to size bytes, size being an int16_t;
returns the count read as an int16_t (a short read at the end of the file is no
error), or the negative code of an error other than end of file; with it the
handle and the bytes stored to buf. -/
def fs_read (B : Nat) (m : Medium) (f : file_t) (size : Int) : Int × file_t × List Nat :=
  match readBytesLoop B m (toInt16 size).toNat f with
  | (e, f1, bs) =>
    if e = error_t.Z80FS_OK ∨ e = error_t.Z80FS_E_EOF then (toInt16 bs.length, f1, bs)
    else (e.code, f1, bs)


/-! ## The round trip of a file, and the media it is stated for -/

/-- Create a file, write the bytes, close, open the same name again and read
as many bytes: the four error codes, the return value of fs_read and the bytes
read. -/
def roundTrip (B : Nat) (m : Medium) (current_dir : Nat) (f : file_t) (name bytes : List Nat) :
    (error_t × error_t × error_t × error_t) × Int × List Nat :=
  let created := fs_create B m current_dir f name
  let written := fs_write B created.2.1 created.2.2 bytes bytes.length
  let closed := fs_close written.2.1 written.2.2
  let opened := fs_open B closed.2 current_dir written.2.2 name
  let got := fs_read B closed.2 opened.2 bytes.length
  ((created.1, written.1, closed.1, opened.1), got.1, got.2.2)

/-- Number of blocks whose type reads empty among count addresses from block on. -/
def freeFrom (m : Medium) : Nat → Nat → Nat
  | 0, _ => 0
  | count + 1, block =>
    (if getType (m.data block) = Z80FS_FNODE_EMPTY then 1 else 0) + freeFrom m count (block + 1)

/-- Number of free blocks of a medium: the blocks from the first usable block
through num_blocks - 1 whose type reads empty. -/
def freeCount (m : Medium) : Nat :=
  freeFrom m (numBlocks (m.data Z80FS_SUPERBLOCK) - firstBlock (m.data Z80FS_SUPERBLOCK))
    (firstBlock (m.data Z80FS_SUPERBLOCK))

/-- The blocks of a directory in chain order: each block points to the next by
its extend pointer and the last one ends the chain with the pointer 0. -/
def IsChain (m : Medium) : List Nat → Prop
  | [] => False
  | [b] => getExtend (m.data b) = Z80FS_EMPTY
  | b :: c :: rest => getExtend (m.data b) = c ∧ c ≠ Z80FS_EMPTY ∧ IsChain m (c :: rest)

/-- A run of directory blocks each of which points to the next, readable one
by its extend pointer. -/
def IsPath (m : Medium) : List Nat → Prop
  | [] => True
  | [_] => True
  | b :: c :: rest =>
    getExtend (m.data b) = c ∧ c ≠ Z80FS_EMPTY ∧ c < m.size ∧ IsPath m (c :: rest)

/-- The entry slots (block, offset) of a chain of directory blocks, the first
block having its first slot at offset first and each following block being an
extend. -/
def chainSlots (B : Nat) (first : Nat) : List Nat → List (Nat × Nat)
  | [] => []
  | b :: rest =>
    (slotOffsets B first).map (fun off => (b, off)) ++
      chainSlots B (Z80FS_FIRST_EXT_ENTRY 0) rest

/-- The used entries of a directory: the non-zero addresses in its slots. -/
def activeEntries (B : Nat) (m : Medium) (chain : List Nat) : List Nat :=
  ((chainSlots B (Z80FS_FIRST_DIR_ENTRY 0) chain).map
    (fun p => getU16 (m.data p.1) p.2)).filter (fun a => a ≠ Z80FS_EMPTY)

/-- A well-formed medium on which the name is new in the directory
current_dir, whose blocks in chain order are chain: the superblock is in place
and describes at most 2^16 blocks of the device; the chain starts at the
directory, ends with the pointer 0, repeats no block and none of its blocks is
empty; every used entry addresses a non-empty block of the filesystem outside
the chain whose name is not the given one. -/
structure WellFormed (B : Nat) (m : Medium) (current_dir : Nat) (name : List Nat)
    (chain : List Nat) : Prop where
  device : 0 < m.size ∧ m.size ≤ 65536
  superblock : fsType (m.data Z80FS_SUPERBLOCK) = Z80FS_VER1 ∧
    numBlocks (m.data Z80FS_SUPERBLOCK) ≤ m.size
  head : chain.head? = some current_dir
  directory : getType (m.data current_dir) = Z80FS_FNODE_DIRECTORY
  linked : IsChain m chain
  nodup : chain.Nodup
  blocks : ∀ c ∈ chain, c < numBlocks (m.data Z80FS_SUPERBLOCK) ∧
    getType (m.data c) ≠ Z80FS_FNODE_EMPTY
  entries : ∀ a ∈ activeEntries B m chain, a < m.size ∧
    getType (m.data a) ≠ Z80FS_FNODE_EMPTY ∧ a ∉ chain ∧ getName (m.data a) ≠ padName name

/-- Enough free blocks for a new file of n bytes: one for the file node, one
for a directory extend should the directory have no unused slot, and extend
blocks for the bytes beyond the payload of the file node. -/
def EnoughFree (B : Nat) (m : Medium) (n : Nat) : Prop :=
  2 ≤ freeCount m ∧
  n ≤ (B - sizeof z80fs_file_t) + (freeCount m - 2) * (B - sizeof z80fs_extend_t)


/-! ## Invariants of the file engine used in the proofs -/

/-- The contents of a block as the file engine sees it while a handle is open:
the buffer of the handle for its current block, the medium for every other. -/
def view (m : Medium) (f : file_t) (block : Nat) : Buffer :=
  if block = f.current_block then f.block_data else m.data block

/-- Invariant of a medium and a handle in write mode. -/
structure Writing (B : Nat) (m : Medium) (f : file_t) : Prop where
  mode : f.mode = MODE_WRITE
  device : 0 < m.size ∧ m.size ≤ 65536
  superblock : getType (m.data Z80FS_SUPERBLOCK) ≠ Z80FS_FNODE_EMPTY ∧
    numBlocks (m.data Z80FS_SUPERBLOCK) ≤ m.size
  cur_ne : f.current_block ≠ Z80FS_SUPERBLOCK
  cur_lt : f.current_block < m.size
  cur_used : getType (m.data f.current_block) ≠ Z80FS_FNODE_EMPTY
  buf_used : getType f.block_data ≠ Z80FS_FNODE_EMPTY
  node_lt : f.file_block < m.size
  node_used : getType (m.data f.file_block) ≠ Z80FS_FNODE_EMPTY
  ptr_le : f.data_pointer ≤ B
  ptr_ge : 4 ≤ f.data_pointer
  ptr_node : f.current_block = f.file_block → 18 ≤ f.data_pointer
  size_lt : f.size < 65536

/-- What writing leaves in place between an earlier state (m, f) and a later
one (m2, f2): every block in use other than the current one, and in the current
block all bytes before the pointer other than the extend pointer. -/
structure Grows (m : Medium) (f : file_t) (m2 : Medium) (f2 : file_t) : Prop where
  size_eq : m2.size = m.size
  node_eq : f2.file_block = f.file_block
  frame : ∀ block, block < m.size → getType (m.data block) ≠ Z80FS_FNODE_EMPTY →
    block ≠ f.current_block → m2.data block = m.data block ∧ block ≠ f2.current_block
  kept : ∀ off, off < f.data_pointer → off ≠ 1 → off ≠ 2 →
    view m2 f2 f.current_block off = f.block_data off

/-- A medium mf that holds what the file engine sees at the state (m, f), but
for the size member of the file node. -/
structure Flushed (mf : Medium) (m : Medium) (f : file_t) : Prop where
  size_eq : mf.size = m.size
  same : ∀ block off, (block = f.file_block → off ≠ 16 ∧ off ≠ 17) →
    mf.data block off = view m f block off

/-- A handle r in read mode on the medium mf stands where the writing handle f
stood. -/
structure Coupled (r : file_t) (f : file_t) (mf : Medium) : Prop where
  mode : r.mode = MODE_READ
  block : r.current_block = f.current_block
  ptr : r.data_pointer = f.data_pointer
  data : r.block_data = mf.data f.current_block


/-! ## Concrete media -/

/-- A medium of n blocks as format leaves it: the superblock with the block size
class, the first usable block 2 and n blocks; an empty root directory with
parent 0; every other block erased. -/
def blankMedium (blk_size n : Nat) : Medium where
  size := n
  data := fun block =>
    if block = Z80FS_SUPERBLOCK then
      setU16 (setU16 (setU8 (setU8 zeroBuffer (memberOffset z80fs_super_t .fs_type) Z80FS_VER1)
        (memberOffset z80fs_super_t .blk_size) blk_size)
        (memberOffset z80fs_super_t .first_block) 2)
        (memberOffset z80fs_super_t .num_blocks) n
    else if block = Z80FS_ROOT_DIR then encodeNode Z80FS_FNODE_DIRECTORY [] Z80FS_EMPTY
    else fun _ => Z80FS_FNODE_EMPTY

/-- A handle not yet in use. -/
def closedHandle : file_t :=
  { file_block := 0, current_block := 0, size := 0, data_pointer := 0,
    block_data := zeroBuffer, mode := MODE_READ }

/-! ## Theorems: layout of the on-disk structures -/

/-- Claim C1. With members laid out in declaration order without padding
(uint8_t one byte, block_t and uint16_t two bytes, char[12] twelve bytes),
z80fs_file_t and z80fs_dir_t both place type at 0x00, extend at 0x01-0x02,
name at 0x03-0x0E, attributes at 0x0F and their 16-bit member (size, parent)
at 0x10-0x11; sizeof of each is 0x12, and Z80FS_FIRST_FILE_BYTE and
Z80FS_FIRST_DIR_ENTRY both address byte 0x12 of the block. -/
theorem head_node_layout :
    (CType.uint8_t.size = 1 ∧ block_t.size = 2 ∧ CType.uint16_t.size = 2 ∧
      (CType.charArray Z80FS_NAME_SIZE).size = 12) ∧
    (bytesOf z80fs_file_t .type = some (0x00, 0x00) ∧
      bytesOf z80fs_file_t .extend = some (0x01, 0x02) ∧
      bytesOf z80fs_file_t .name = some (0x03, 0x0E) ∧
      bytesOf z80fs_file_t .attributes = some (0x0F, 0x0F) ∧
      bytesOf z80fs_file_t .size = some (0x10, 0x11)) ∧
    (bytesOf z80fs_dir_t .type = some (0x00, 0x00) ∧
      bytesOf z80fs_dir_t .extend = some (0x01, 0x02) ∧
      bytesOf z80fs_dir_t .name = some (0x03, 0x0E) ∧
      bytesOf z80fs_dir_t .attributes = some (0x0F, 0x0F) ∧
      bytesOf z80fs_dir_t .parent = some (0x10, 0x11)) ∧
    sizeof z80fs_file_t = 0x12 ∧ sizeof z80fs_dir_t = 0x12 ∧
    (∀ f, Z80FS_FIRST_FILE_BYTE f = f + 0x12) ∧
    (∀ dir, Z80FS_FIRST_DIR_ENTRY dir = dir + 0x12) := by
  refine ⟨by decide, by decide, by decide, by decide, by decide, ?_, ?_⟩
  · intro f; rfl
  · intro dir; rfl

/-- Claim C2, as stated, fails: for the extend block at address 0 neither
Z80FS_FIRST_EXT_BYTE nor Z80FS_FIRST_EXT_ENTRY addresses byte 0x03. The struct
z80fs_extend_t has a reserved byte behind the 16-bit extend pointer, so its
sizeof is 4 when packed (and 6 under natural alignment), never 3. -/
theorem extend_payload_not_at_0x03 :
    Z80FS_FIRST_EXT_BYTE 0 ≠ 0 + 0x03 ∧ Z80FS_FIRST_EXT_ENTRY 0 ≠ 0 + 0x03 ∧
    Z80FS_FIRST_EXT_BYTE 0 = 0x04 ∧ Z80FS_FIRST_EXT_ENTRY 0 = 0x04 ∧
    firstExtByteWith CType.naturalAlign 0 ≠ 0 + 0x03 := by
  decide

/-- Claim C2, amended. In an extend node the type byte is at 0x00, the 16-bit
extend pointer at 0x01-0x02 and the reserved byte at 0x03, so
sizeof(z80fs_extend_t) is 4 and for every extend block ext both
Z80FS_FIRST_EXT_BYTE(ext) and Z80FS_FIRST_EXT_ENTRY(ext), computed as
ext + sizeof(z80fs_extend_t), address byte 0x04 of the block. -/
theorem extend_payload_offset :
    bytesOf z80fs_extend_t .type = some (0x00, 0x00) ∧
    bytesOf z80fs_extend_t .extend = some (0x01, 0x02) ∧
    bytesOf z80fs_extend_t .reserved1 = some (0x03, 0x03) ∧
    sizeof z80fs_extend_t = 0x04 ∧
    (∀ ext, Z80FS_FIRST_EXT_BYTE ext = ext + sizeof z80fs_extend_t ∧
      Z80FS_FIRST_EXT_BYTE ext = ext + 0x04) ∧
    (∀ ext, Z80FS_FIRST_EXT_ENTRY ext = ext + sizeof z80fs_extend_t ∧
      Z80FS_FIRST_EXT_ENTRY ext = ext + 0x04) := by
  refine ⟨by decide, by decide, by decide, by decide, ?_, ?_⟩
  · intro ext; exact ⟨rfl, rfl⟩
  · intro ext; exact ⟨rfl, rfl⟩

/-- Claim C3. z80fs_super_t places fs_type at 0x00, blk_size (one byte) at
0x01, first_block (two bytes) at 0x02, num_blocks (two bytes) at 0x04 and the
12-byte volume name at 0x06-0x11, 18 bytes in total (packed and under natural
alignment alike), so the superblock fits in one block of every block size
class: 18 <= 32 <= block size. -/
theorem superblock_layout :
    (bytesOf z80fs_super_t .fs_type = some (0x00, 0x00) ∧
      bytesOf z80fs_super_t .blk_size = some (0x01, 0x01) ∧
      bytesOf z80fs_super_t .first_block = some (0x02, 0x03) ∧
      bytesOf z80fs_super_t .num_blocks = some (0x04, 0x05) ∧
      bytesOf z80fs_super_t .name = some (0x06, 0x11)) ∧
    sizeof z80fs_super_t = 18 ∧
    (layoutFrom CType.naturalAlign 0 z80fs_super_t = layoutFrom packedAlign 0 z80fs_super_t ∧
      sizeofWith CType.naturalAlign z80fs_super_t = 18) ∧
    (∀ c ∈ blockSizeClasses,
      sizeof z80fs_super_t ≤ 32 ∧ 32 ≤ Z80FS_GET_BLOCKSIZE c) := by
  decide

/-- Claim C4. For every block size class c of Z80FS_BS32..Z80FS_BS1024
(c = 1..6), Z80FS_GET_BLOCKSIZE(c) equals 16 << c; the six decoded sizes are
32, 64, 128, 256, 512, 1024 in that order, strictly increasing, each a power of
two and each below 2^16. -/
theorem blocksize_decoding (c : Nat) (h1 : 1 ≤ c) (h6 : c ≤ 6) :
    c ∈ blockSizeClasses ∧
    Z80FS_GET_BLOCKSIZE c = 16 <<< c ∧
    blockSizeClasses = [1, 2, 3, 4, 5, 6] ∧
    blockSizeClasses.map Z80FS_GET_BLOCKSIZE = [32, 64, 128, 256, 512, 1024] ∧
    (blockSizeClasses.map Z80FS_GET_BLOCKSIZE).Pairwise (fun a b => a < b) ∧
    Z80FS_GET_BLOCKSIZE c = 2 ^ (c + 4) ∧
    Z80FS_GET_BLOCKSIZE c < 2 ^ 16 := by
  have hc : c = 1 ∨ c = 2 ∨ c = 3 ∨ c = 4 ∨ c = 5 ∨ c = 6 := by omega
  rcases hc with h | h | h | h | h | h <;> subst h <;> decide

/-- Witness for claim C4 at the class Z80FS_BS128. -/
theorem blocksize_decoding_witness :
    (1 ≤ Z80FS_BS128 ∧ Z80FS_BS128 ≤ 6) ∧ Z80FS_GET_BLOCKSIZE Z80FS_BS128 = 128 :=
  ⟨by decide, (blocksize_decoding Z80FS_BS128 (by decide) (by decide)).2.1.trans (by decide)⟩

/-- Claim C5. The five type tags are empty 0xFF, file 0x01, file-extend 0x02,
directory 0x03, directory-extend 0x04 and pairwise distinct; ENTRY_FILE and
ENTRY_DIR are the file tag and the directory tag and equal neither the empty
tag nor an extend tag. -/
theorem type_tag_encoding :
    (Z80FS_FNODE_EMPTY = 0xFF ∧ Z80FS_FNODE_FILE = 0x01 ∧ Z80FS_FNODE_FEXTEND = 0x02 ∧
      Z80FS_FNODE_DIRECTORY = 0x03 ∧ Z80FS_FNODE_DIREXTEND = 0x04) ∧
    [Z80FS_FNODE_EMPTY, Z80FS_FNODE_FILE, Z80FS_FNODE_FEXTEND, Z80FS_FNODE_DIRECTORY,
      Z80FS_FNODE_DIREXTEND].Pairwise (fun a b => a ≠ b) ∧
    (ENTRY_FILE = Z80FS_FNODE_FILE ∧ ENTRY_DIR = Z80FS_FNODE_DIRECTORY) ∧
    (∀ e ∈ [ENTRY_FILE, ENTRY_DIR],
      e ≠ Z80FS_FNODE_EMPTY ∧ e ≠ Z80FS_FNODE_FEXTEND ∧ e ≠ Z80FS_FNODE_DIREXTEND) := by
  decide

/-- Claim C6, as stated, fails: error_t has twelve enumerators, not eleven, so
no one-to-one correspondence between the enumerators and the eleven kinds
exists; under the matching by comments, Z80FS_E_NAME (invalid file name)
carries none of the eleven kinds. -/
theorem error_taxonomy_not_eleven :
    (¬ ∃ f : error_t → ErrorKind, Function.Bijective f) ∧
    Fintype.card error_t = 12 ∧ Fintype.card ErrorKind = 11 ∧
    (∀ k : ErrorKind, k.enumerator ≠ error_t.Z80FS_E_NAME) := by
  refine ⟨?_, by decide, by decide, by decide⟩
  rintro ⟨f, hf⟩
  have h := Fintype.card_of_bijective hf
  have h12 : Fintype.card error_t = 12 := by decide
  have h11 : Fintype.card ErrorKind = 11 := by decide
  omega

/-- Claim C6, amended. error_t is one flat enumeration of twelve enumerators
with the pairwise distinct codes 0, -1, ..., -11. Each of the eleven kinds
corresponds to exactly one enumerator, different kinds to different
enumerators, and every enumerator other than Z80FS_E_NAME (invalid file name,
code -9) corresponds to exactly one kind. -/
theorem error_taxonomy :
    Fintype.card error_t = 12 ∧
    Function.Injective error_t.code ∧
    (Finset.univ.image error_t.code = Finset.Icc (-11 : Int) 0) ∧
    Function.Injective ErrorKind.enumerator ∧
    (∀ e : error_t, e ≠ error_t.Z80FS_E_NAME → ∃! k : ErrorKind, k.enumerator = e) ∧
    (∀ k : ErrorKind, k.enumerator ≠ error_t.Z80FS_E_NAME) ∧
    error_t.Z80FS_E_NAME.code = -9 := by
  refine ⟨by decide, by decide, by decide, by decide, ?_, by decide, by decide⟩
  intro e he
  have hinj : Function.Injective ErrorKind.enumerator := by decide
  have hex : ∃ k : ErrorKind, k.enumerator = e := by
    revert e
    decide
  obtain ⟨k, hk⟩ := hex
  exact ⟨k, hk, fun k2 hk2 => hinj (hk2.trans hk.symm)⟩

/-- Claim C7. A block address is a 16-bit unsigned integer (block_t is
uint16_t); Z80FS_SUPERBLOCK is 0, Z80FS_ROOT_DIR is 1 and the sentinel
Z80FS_EMPTY is 0: it equals the superblock address, differs from the root
directory address, and no block address other than that of the superblock
equals the sentinel. -/
theorem reserved_addresses :
    (block_t = CType.uint16_t ∧ 8 * block_t.size = 16) ∧
    (Z80FS_SUPERBLOCK = 0 ∧ Z80FS_ROOT_DIR = 1 ∧ Z80FS_EMPTY = 0) ∧
    (block_t.holds Z80FS_SUPERBLOCK ∧ block_t.holds Z80FS_ROOT_DIR ∧
      block_t.holds Z80FS_EMPTY) ∧
    Z80FS_EMPTY = Z80FS_SUPERBLOCK ∧ Z80FS_EMPTY ≠ Z80FS_ROOT_DIR ∧
    (∀ b : Nat, block_t.holds b → b ≠ Z80FS_SUPERBLOCK → b ≠ Z80FS_EMPTY) ∧
    (∀ b : Nat, block_t.holds b ↔ b < 65536) := by
  refine ⟨by decide, by decide, by decide, by decide, by decide, ?_, ?_⟩
  · intro b _ hb; exact hb
  · intro b; exact Iff.rfl

/-- Claim C9. The three node shapes share their leading bytes: in
z80fs_file_t, z80fs_dir_t and z80fs_extend_t the type tag is at 0x00 and the
16-bit little-endian extend pointer at 0x01-0x02; file and directory node agree
on name (0x03-0x0E) and attributes (0x0F). So for every block buffer the type
tag and the extend pointer read the same under all three interpretations, and
the name reads as the same 12 bytes under the file and the directory
interpretation. -/
theorem shared_leading_bytes (buf : Buffer) :
    (bytesOf z80fs_file_t .type = some (0x00, 0x00) ∧
      bytesOf z80fs_dir_t .type = some (0x00, 0x00) ∧
      bytesOf z80fs_extend_t .type = some (0x00, 0x00)) ∧
    (bytesOf z80fs_file_t .extend = some (0x01, 0x02) ∧
      bytesOf z80fs_dir_t .extend = some (0x01, 0x02) ∧
      bytesOf z80fs_extend_t .extend = some (0x01, 0x02)) ∧
    (bytesOf z80fs_file_t .name = some (0x03, 0x0E) ∧
      bytesOf z80fs_dir_t .name = some (0x03, 0x0E) ∧
      bytesOf z80fs_file_t .attributes = some (0x0F, 0x0F) ∧
      bytesOf z80fs_dir_t .attributes = some (0x0F, 0x0F)) ∧
    (readInt z80fs_file_t .type buf = some (buf 0) ∧
      readInt z80fs_dir_t .type buf = readInt z80fs_file_t .type buf ∧
      readInt z80fs_extend_t .type buf = readInt z80fs_file_t .type buf) ∧
    (readInt z80fs_file_t .extend buf = some (buf 1 + 256 * buf 2) ∧
      readInt z80fs_dir_t .extend buf = readInt z80fs_file_t .extend buf ∧
      readInt z80fs_extend_t .extend buf = readInt z80fs_file_t .extend buf) ∧
    (readMember z80fs_file_t .name buf = some (readBytes buf 3 12) ∧
      readMember z80fs_dir_t .name buf = readMember z80fs_file_t .name buf ∧
      (readBytes buf 3 12).length = 12) := by
  refine ⟨by decide, by decide, by decide, ⟨?_, rfl, rfl⟩, ⟨?_, rfl, rfl⟩, ⟨rfl, rfl, ?_⟩⟩
  · show some (buf 0 + 256 * 0) = some (buf 0)
    simp
  · show some (buf 1 + 256 * (buf 2 + 256 * 0)) = some (buf 1 + 256 * buf 2)
    simp
  · simp [readBytes]

/-- Claim C10. For every block size class c = 1..6 with B the decoded block
size, the region behind a directory head node (B - sizeof(z80fs_dir_t)) and
behind a directory-extend header (B - sizeof(z80fs_extend_t)) are positive
exact multiples of sizeof(block_t) = 2: whole entry slots from
Z80FS_FIRST_DIR_ENTRY and Z80FS_FIRST_EXT_ENTRY end exactly at the block end and
none crosses it (7 and 14 slots for B = 32); the file payload region
B - sizeof(z80fs_file_t) is at least 14 bytes. -/
theorem entry_slots_tile (c : Nat) (hc : c ∈ blockSizeClasses) :
    block_t.size = 2 ∧
    (0 < Z80FS_GET_BLOCKSIZE c - sizeof z80fs_dir_t ∧
      (Z80FS_GET_BLOCKSIZE c - sizeof z80fs_dir_t) % block_t.size = 0) ∧
    (0 < Z80FS_GET_BLOCKSIZE c - sizeof z80fs_extend_t ∧
      (Z80FS_GET_BLOCKSIZE c - sizeof z80fs_extend_t) % block_t.size = 0) ∧
    (Z80FS_FIRST_DIR_ENTRY 0 +
        block_t.size * ((Z80FS_GET_BLOCKSIZE c - sizeof z80fs_dir_t) / block_t.size)
      = Z80FS_GET_BLOCKSIZE c) ∧
    (Z80FS_FIRST_EXT_ENTRY 0 +
        block_t.size * ((Z80FS_GET_BLOCKSIZE c - sizeof z80fs_extend_t) / block_t.size)
      = Z80FS_GET_BLOCKSIZE c) ∧
    (∀ i, i < (Z80FS_GET_BLOCKSIZE c - sizeof z80fs_dir_t) / block_t.size →
      Z80FS_FIRST_DIR_ENTRY 0 + block_t.size * i + block_t.size ≤ Z80FS_GET_BLOCKSIZE c) ∧
    (∀ i, i < (Z80FS_GET_BLOCKSIZE c - sizeof z80fs_extend_t) / block_t.size →
      Z80FS_FIRST_EXT_ENTRY 0 + block_t.size * i + block_t.size ≤ Z80FS_GET_BLOCKSIZE c) ∧
    ((Z80FS_GET_BLOCKSIZE Z80FS_BS32 - sizeof z80fs_dir_t) / block_t.size = 7 ∧
      (Z80FS_GET_BLOCKSIZE Z80FS_BS32 - sizeof z80fs_extend_t) / block_t.size = 14) ∧
    14 ≤ Z80FS_GET_BLOCKSIZE c - sizeof z80fs_file_t := by
  have hs : block_t.size = 2 := rfl
  have hd : sizeof z80fs_dir_t = 18 := by decide
  have he : sizeof z80fs_extend_t = 4 := by decide
  have hf : sizeof z80fs_file_t = 18 := by decide
  have hfd : Z80FS_FIRST_DIR_ENTRY 0 = 18 := by decide
  have hfe : Z80FS_FIRST_EXT_ENTRY 0 = 4 := by decide
  have h32 : Z80FS_GET_BLOCKSIZE Z80FS_BS32 = 32 := by decide
  have hB : Z80FS_GET_BLOCKSIZE c = 32 ∨ Z80FS_GET_BLOCKSIZE c = 64 ∨
      Z80FS_GET_BLOCKSIZE c = 128 ∨ Z80FS_GET_BLOCKSIZE c = 256 ∨
      Z80FS_GET_BLOCKSIZE c = 512 ∨ Z80FS_GET_BLOCKSIZE c = 1024 := by
    simp only [blockSizeClasses, List.mem_cons, List.mem_singleton, List.not_mem_nil,
      or_false] at hc
    rcases hc with h | h | h | h | h | h <;> subst h <;> decide
  rw [hs, hd, he, hf, hfd, hfe, h32]
  refine ⟨rfl, ?_, ?_, ?_, ?_, ?_, ?_, by decide, ?_⟩ <;>
    rcases hB with h | h | h | h | h | h <;> rw [h] <;> omega

/-- Witness for claim C10 at the class Z80FS_BS32. -/
theorem entry_slots_tile_witness :
    Z80FS_BS32 ∈ blockSizeClasses ∧
    14 ≤ Z80FS_GET_BLOCKSIZE Z80FS_BS32 - sizeof z80fs_file_t :=
  ⟨by decide, (entry_slots_tile Z80FS_BS32 (by decide)).2.2.2.2.2.2.2.2⟩


/-! ## Lemmas: member offsets and buffer access -/

theorem getType_eq (buf : Buffer) : getType buf = buf 0 := rfl

theorem getExtend_eq (buf : Buffer) : getExtend buf = buf 1 + 256 * buf 2 := rfl

theorem getSize_eq (buf : Buffer) : getSize buf = buf 16 + 256 * buf 17 := rfl

theorem getU16_eq (buf : Buffer) (off : Nat) : getU16 buf off = buf off + 256 * buf (off + 1) := rfl

theorem setU16_apply (buf : Buffer) (off v i : Nat) :
    setU16 buf off v i =
      if i = off + 1 then v / 256 % 256 else if i = off then v % 256 else buf i := by
  simp [setU16, Function.update_apply]

theorem setU8_apply (buf : Buffer) (off v i : Nat) :
    setU8 buf off v i = if i = off then v % 256 else buf i := by
  simp [setU8, Function.update_apply]

theorem setExtend_apply (buf : Buffer) (v i : Nat) :
    setExtend buf v i = if i = 2 then v / 256 % 256 else if i = 1 then v % 256 else buf i :=
  setU16_apply buf 1 v i

theorem setSize_apply (buf : Buffer) (v i : Nat) :
    setSize buf v i = if i = 17 then v / 256 % 256 else if i = 16 then v % 256 else buf i :=
  setU16_apply buf 16 v i

theorem getU16_setU16 (buf : Buffer) (off v : Nat) (hv : v < 65536) :
    getU16 (setU16 buf off v) off = v := by
  simp only [getU16_eq, setU16_apply]
  simp
  omega

theorem getExtend_setExtend (buf : Buffer) (v : Nat) (hv : v < 65536) :
    getExtend (setExtend buf v) = v :=
  getU16_setU16 buf 1 v hv

theorem getSize_setSize (buf : Buffer) (v : Nat) (hv : v < 65536) :
    getSize (setSize buf v) = v :=
  getU16_setU16 buf 16 v hv

theorem getU16_setU16_ne (buf : Buffer) (off v off2 : Nat) (h1 : off2 ≠ off)
    (h2 : off2 ≠ off + 1) (h3 : off2 + 1 ≠ off) :
    getU16 (setU16 buf off v) off2 = getU16 buf off2 := by
  simp only [getU16_eq, setU16_apply]
  have h4 : off2 + 1 ≠ off + 1 := by omega
  simp [h1, h2, h3, h4]

theorem getName_eq (buf : Buffer) :
    getName buf = [buf 3, buf 4, buf 5, buf 6, buf 7, buf 8, buf 9, buf 10, buf 11, buf 12,
      buf 13, buf 14] := rfl

theorem getName_congr (a b : Buffer) (h : ∀ i, 3 ≤ i → i < 15 → a i = b i) :
    getName a = getName b := by
  simp only [getName_eq]
  rw [h 3 (by omega) (by omega), h 4 (by omega) (by omega), h 5 (by omega) (by omega),
    h 6 (by omega) (by omega), h 7 (by omega) (by omega), h 8 (by omega) (by omega),
    h 9 (by omega) (by omega), h 10 (by omega) (by omega), h 11 (by omega) (by omega),
    h 12 (by omega) (by omega), h 13 (by omega) (by omega), h 14 (by omega) (by omega)]

theorem padName_length (name : List Nat) : (padName name).length = 12 := by
  simp [padName, Z80FS_NAME_SIZE]

theorem padName_lt (name : List Nat) (h : ∀ c ∈ name, c < 256) :
    ∀ c ∈ padName name, c < 256 := by
  intro c hc
  have hc2 := List.mem_of_mem_take hc
  rcases List.mem_append.1 hc2 with h1 | h1
  · exact h c h1
  · have := List.eq_of_mem_replicate h1
    omega

theorem encodeNode_apply (type : Nat) (name : List Nat) (last i : Nat) :
    encodeNode type name last i =
      if i = 17 then last / 256 % 256 else if i = 16 then last % 256
      else if i = 15 then 0
      else if 3 ≤ i ∧ i < 15 then (padName name).getD (i - 3) 0 % 256
      else if i = 0 then type % 256 else 0 := by
  have h3 : memberOffset z80fs_file_t .name = 3 := rfl
  have h0 : memberOffset z80fs_file_t .type = 0 := rfl
  have h15 : memberOffset z80fs_file_t .attributes = 15 := rfl
  have h16 : memberOffset z80fs_file_t .size = 16 := rfl
  simp only [encodeNode, setU16_apply, setU8_apply, setName, setExtend_apply, h3, h0, h15, h16,
    zeroBuffer, Z80FS_NAME_SIZE, Z80FS_EMPTY]
  by_cases c17 : i = 17
  · simp [c17]
  by_cases c16 : i = 16
  · simp [c16]
  by_cases c15 : i = 15
  · simp [c15]
  by_cases c3 : 3 ≤ i ∧ i < 15
  · have : 3 ≤ i ∧ i < 3 + 12 := by omega
    simp [c17, c16, c15, c3, this]
  · have : ¬ (3 ≤ i ∧ i < 3 + 12) := by omega
    simp only [c17, c16, c15, c3, this, if_false]
    by_cases c2 : i = 2
    · simp [c2]
    by_cases c1 : i = 1
    · simp [c1]
    simp [c2, c1]

theorem getName_encodeNode (type : Nat) (name : List Nat) (last : Nat)
    (h : ∀ c ∈ name, c < 256) : getName (encodeNode type name last) = padName name := by
  have hl := padName_length name
  have hb := padName_lt name h
  apply List.ext_getElem
  · simp [getName_eq, hl]
  · intro n h1 h2
    have hn : n < 12 := by simpa [getName_eq] using h1
    have hmem : (padName name)[n] < 256 := hb _ (List.getElem_mem _)
    have hD : (padName name).getD n 0 = (padName name)[n] := by
      simp [List.getD_eq_getElem?_getD, List.getElem?_eq_getElem h2]
    have key : encodeNode type name last (3 + n) = (padName name)[n] := by
      rw [encodeNode_apply]
      have c3 : 3 ≤ 3 + n ∧ 3 + n < 15 := by omega
      have e1 : 3 + n ≠ 17 := by omega
      have e2 : 3 + n ≠ 16 := by omega
      have e3 : 3 + n ≠ 15 := by omega
      simp only [e1, e2, e3, c3, if_false, and_self, if_true]
      have : 3 + n - 3 = n := by omega
      rw [this, hD]
      exact Nat.mod_eq_of_lt hmem
    have hget : (getName (encodeNode type name last))[n] = encodeNode type name last (3 + n) := by
      simp only [getName_eq]
      rcases (by omega : n = 0 ∨ n = 1 ∨ n = 2 ∨ n = 3 ∨ n = 4 ∨ n = 5 ∨ n = 6 ∨ n = 7 ∨ n = 8 ∨
        n = 9 ∨ n = 10 ∨ n = 11) with h | h | h | h | h | h | h | h | h | h | h | h <;>
        subst h <;> rfl
    rw [hget, key]

theorem encodeExtend_apply (type i : Nat) :
    encodeExtend type i = if i = 0 then type % 256 else 0 := by
  have h3 : memberOffset z80fs_extend_t .reserved1 = 3 := rfl
  have h0 : memberOffset z80fs_extend_t .type = 0 := rfl
  simp only [encodeExtend, setU8_apply, setExtend_apply, h3, h0, zeroBuffer, Z80FS_EMPTY]
  by_cases c3 : i = 3
  · simp [c3]
  by_cases c2 : i = 2
  · simp [c2]
  by_cases c1 : i = 1
  · simp [c1]
  simp [c3, c2, c1]


/-! ## Lemmas: the medium and the allocator -/

theorem put_size (m : Medium) (b : Nat) (src : Buffer) : (m.put b src).size = m.size := rfl

theorem put_data_same (m : Medium) (b : Nat) (src : Buffer) : (m.put b src).data b = src := by
  simp [Medium.put]

theorem put_data_ne (m : Medium) (b c : Nat) (src : Buffer) (h : c ≠ b) :
    (m.put b src).data c = m.data c := by
  simp [Medium.put, Function.update_apply, h]

theorem put_data (m : Medium) (b c : Nat) (src : Buffer) :
    (m.put b src).data c = if c = b then src else m.data c := by
  by_cases h : c = b
  · subst h; simp [put_data_same]
  · simp [put_data_ne, h]

theorem writeBlock_lt (m : Medium) (b : Nat) (src : Buffer) (h : b < m.size) :
    writeBlock m b src = some (m.put b src) := by
  simp [writeBlock, h]

theorem readBlock_lt (m : Medium) (b : Nat) (h : b < m.size) :
    readBlock m b = some (m.data b) := by
  simp [readBlock, h]

theorem scanFree_spec (m : Medium) : ∀ (k b : Nat), b + k ≤ m.size → 0 < freeFrom m k b →
    ∃ x, scanFree m k b = .ok x ∧ b ≤ x ∧ x < b + k ∧
      getType (m.data x) = Z80FS_FNODE_EMPTY := by
  intro k
  induction k with
  | zero => intro b _ h; simp [freeFrom] at h
  | succ k ih =>
    intro b hb hfree
    have hlt : b < m.size := by omega
    by_cases ht : getType (m.data b) = Z80FS_FNODE_EMPTY
    · refine ⟨b, ?_, le_refl b, by omega, ht⟩
      have ht2 : m.data b 0 = Z80FS_FNODE_EMPTY := ht
      simp [scanFree, getBlockType, hlt, ht2]
    · have hfree2 : 0 < freeFrom m k (b + 1) := by
        simpa [freeFrom, ht] using hfree
      obtain ⟨x, hx, h1, h2, h3⟩ := ih (b + 1) (by omega) hfree2
      refine ⟨x, ?_, by omega, by omega, h3⟩
      have ht2 : ¬ m.data b 0 = Z80FS_FNODE_EMPTY := ht
      simp [scanFree, getBlockType, hlt, ht2, hx]

theorem freeFrom_congr (m m2 : Medium) : ∀ (k b : Nat),
    (∀ y, b ≤ y → y < b + k → getType (m2.data y) = getType (m.data y)) →
    freeFrom m2 k b = freeFrom m k b := by
  intro k
  induction k with
  | zero => intro b _; rfl
  | succ k ih =>
    intro b h
    simp only [freeFrom]
    rw [h b (le_refl b) (by omega), ih (b + 1) (fun y h1 h2 => h y (by omega) (by omega))]

theorem freeFrom_le_of_used (m m2 : Medium) (x : Nat)
    (hx : getType (m.data x) ≠ Z80FS_FNODE_EMPTY)
    (hsame : ∀ y, y ≠ x → getType (m2.data y) = getType (m.data y)) : ∀ (k b : Nat),
    freeFrom m k b ≤ freeFrom m2 k b := by
  intro k
  induction k with
  | zero => intro b; simp [freeFrom]
  | succ k ih =>
    intro b
    simp only [freeFrom]
    have := ih (b + 1)
    by_cases hb : b = x
    · subst hb
      simp only [hx, if_false]
      omega
    · rw [hsame b hb]
      omega

theorem freeFrom_le_succ (m m2 : Medium) (x : Nat)
    (hsame : ∀ y, y ≠ x → getType (m2.data y) = getType (m.data y)) : ∀ (k b : Nat),
    freeFrom m k b ≤ freeFrom m2 k b + 1 := by
  intro k
  induction k with
  | zero => intro b; simp [freeFrom]
  | succ k ih =>
    intro b
    simp only [freeFrom]
    by_cases hb : b = x
    · subst hb
      have hc := freeFrom_congr m m2 k (b + 1) (fun y h1 _ => hsame y (by omega))
      rw [hc]
      split <;> split <;> omega
    · rw [hsame b hb]
      have := ih (b + 1)
      omega

theorem freeCount_put_le (m : Medium) (x : Nat) (src : Buffer) (hx : x ≠ 0) :
    freeCount m ≤ freeCount (m.put x src) + 1 := by
  have h0 : (m.put x src).data Z80FS_SUPERBLOCK = m.data Z80FS_SUPERBLOCK :=
    put_data_ne m x 0 src (Ne.symm hx)
  unfold freeCount
  rw [h0]
  exact freeFrom_le_succ m (m.put x src) x
    (fun y hy => by rw [put_data_ne m x y src hy]) _ _

theorem freeCount_put_used (m : Medium) (x : Nat) (src : Buffer) (hx : x ≠ 0)
    (hused : getType (m.data x) ≠ Z80FS_FNODE_EMPTY) :
    freeCount m ≤ freeCount (m.put x src) := by
  have h0 : (m.put x src).data Z80FS_SUPERBLOCK = m.data Z80FS_SUPERBLOCK :=
    put_data_ne m x 0 src (Ne.symm hx)
  unfold freeCount
  rw [h0]
  exact freeFrom_le_of_used m (m.put x src) x hused
    (fun y hy => by rw [put_data_ne m x y src hy]) _ _

theorem allocate_spec (m : Medium) (h0 : 0 < m.size)
    (hn : numBlocks (m.data Z80FS_SUPERBLOCK) ≤ m.size) (hfree : 0 < freeCount m) :
    ∃ x, allocate m = .ok x ∧ x < numBlocks (m.data Z80FS_SUPERBLOCK) ∧
      getType (m.data x) = Z80FS_FNODE_EMPTY := by
  have hle : firstBlock (m.data Z80FS_SUPERBLOCK) ≤ numBlocks (m.data Z80FS_SUPERBLOCK) := by
    by_contra hc
    have hz : numBlocks (m.data Z80FS_SUPERBLOCK) - firstBlock (m.data Z80FS_SUPERBLOCK) = 0 := by
      omega
    unfold freeCount at hfree
    rw [hz] at hfree
    simp [freeFrom] at hfree
  obtain ⟨x, hx, _, h2, h3⟩ := scanFree_spec m _ _ (by omega) hfree
  refine ⟨x, ?_, by omega, h3⟩
  have hr : readBlock m Z80FS_SUPERBLOCK = some (m.data Z80FS_SUPERBLOCK) :=
    readBlock_lt m _ h0
  simp [allocate, hr, hx]


/-! ## Lemmas: writing bytes and reading them back -/

theorem tag_consts : Z80FS_FNODE_EMPTY = 255 ∧ Z80FS_FNODE_FEXTEND = 2 ∧ Z80FS_FNODE_FILE = 1 ∧
    Z80FS_FNODE_DIRECTORY = 3 ∧ Z80FS_FNODE_DIREXTEND = 4 ∧ Z80FS_EMPTY = 0 ∧
    Z80FS_SUPERBLOCK = 0 ∧ Z80FS_VER1 = 1 := by decide

theorem first_consts : Z80FS_FIRST_EXT_BYTE 0 = 4 ∧ Z80FS_FIRST_FILE_BYTE 0 = 18 ∧
    Z80FS_FIRST_EXT_ENTRY 0 = 4 ∧ Z80FS_FIRST_DIR_ENTRY 0 = 18 := by decide

/-- A write that stays inside the payload of the current block. -/
theorem fs_write_byte_inside (B : Nat) (m : Medium) (f : file_t) (b : Nat)
    (hm : f.mode = MODE_WRITE) (hp : f.data_pointer < B) :
    fs_write_byte B m f b = (error_t.Z80FS_OK, m,
      { f with block_data := setU8 f.block_data f.data_pointer b,
               data_pointer := f.data_pointer + 1,
               size := toUInt16 (f.size + 1) }) := by
  simp [fs_write_byte, hm, hp]

/-- A write at the end of the payload of the current block, into a new extend. -/
theorem fs_write_byte_cross (B : Nat) (m : Medium) (f : file_t) (b ext : Nat)
    (hm : f.mode = MODE_WRITE) (hp : ¬ f.data_pointer < B)
    (ha : allocate m = .ok ext) (he : ext < m.size) (hc : f.current_block < m.size) :
    fs_write_byte B m f b = (error_t.Z80FS_OK,
      (m.put ext (encodeExtend Z80FS_FNODE_FEXTEND)).put f.current_block
        (setExtend f.block_data ext),
      { f with current_block := ext,
               block_data := setU8 (encodeExtend Z80FS_FNODE_FEXTEND) (Z80FS_FIRST_EXT_BYTE 0) b,
               data_pointer := Z80FS_FIRST_EXT_BYTE 0 + 1,
               size := toUInt16 (f.size + 1) }) := by
  have h1 : writeBlock m ext (encodeExtend Z80FS_FNODE_FEXTEND) =
      some (m.put ext (encodeExtend Z80FS_FNODE_FEXTEND)) := writeBlock_lt m ext _ he
  have h2 : writeBlock (m.put ext (encodeExtend Z80FS_FNODE_FEXTEND)) f.current_block
      (setExtend f.block_data ext) = some ((m.put ext (encodeExtend Z80FS_FNODE_FEXTEND)).put
        f.current_block (setExtend f.block_data ext)) :=
    writeBlock_lt _ _ _ (by rw [put_size]; exact hc)
  simp [fs_write_byte, hm, hp, ha, h1, h2]


theorem grows_refl (m : Medium) (f : file_t) : Grows m f m f where
  size_eq := rfl
  node_eq := rfl
  frame := fun _ _ _ h => ⟨rfl, h⟩
  kept := fun off _ _ _ => by simp [view]

theorem writing_inside (B : Nat) (m : Medium) (f : file_t) (b : Nat) (hw : Writing B m f)
    (hp : f.data_pointer < B) :
    Writing B m { f with block_data := setU8 f.block_data f.data_pointer b,
                         data_pointer := f.data_pointer + 1,
                         size := toUInt16 (f.size + 1) } where
  mode := hw.mode
  device := hw.device
  superblock := hw.superblock
  cur_ne := hw.cur_ne
  cur_lt := hw.cur_lt
  cur_used := hw.cur_used
  buf_used := by
    have h4 := hw.ptr_ge
    have h0 : (0 : Nat) ≠ f.data_pointer := by omega
    have := hw.buf_used
    simpa [getType_eq, setU8_apply, h0] using this
  node_lt := hw.node_lt
  node_used := hw.node_used
  ptr_le := by show f.data_pointer + 1 ≤ B; omega
  ptr_ge := by show 4 ≤ f.data_pointer + 1; have := hw.ptr_ge; omega
  ptr_node := fun h => by
    show 18 ≤ f.data_pointer + 1
    have := hw.ptr_node h
    omega
  size_lt := by show toUInt16 (f.size + 1) < 65536; unfold toUInt16; omega

theorem grows_inside (m : Medium) (f : file_t) (b : Nat) (m2 : Medium) (f2 : file_t)
    (hg : Grows m { f with block_data := setU8 f.block_data f.data_pointer b,
                           data_pointer := f.data_pointer + 1,
                           size := toUInt16 (f.size + 1) } m2 f2) :
    Grows m f m2 f2 where
  size_eq := hg.size_eq
  node_eq := hg.node_eq
  frame := hg.frame
  kept := fun off h1 h2 h3 => by
    have h := hg.kept off (by show off < f.data_pointer + 1; omega) h2 h3
    have hne : off ≠ f.data_pointer := by omega
    simpa [setU8_apply, hne] using h

theorem writing_cross (B : Nat) (hB : 18 ≤ B) (m : Medium) (f : file_t) (b ext : Nat)
    (hw : Writing B m f) (hlt : ext < numBlocks (m.data Z80FS_SUPERBLOCK))
    (hempty : getType (m.data ext) = Z80FS_FNODE_EMPTY) :
    Writing B ((m.put ext (encodeExtend Z80FS_FNODE_FEXTEND)).put f.current_block
        (setExtend f.block_data ext))
      { f with current_block := ext,
               block_data := setU8 (encodeExtend Z80FS_FNODE_FEXTEND) (Z80FS_FIRST_EXT_BYTE 0) b,
               data_pointer := Z80FS_FIRST_EXT_BYTE 0 + 1,
               size := toUInt16 (f.size + 1) } := by
  obtain ⟨hE, hFE, -, -, -, -, hSB, -⟩ := tag_consts
  obtain ⟨hFB, -, -, -⟩ := first_consts
  have hext0 : ext ≠ 0 := by
    intro h
    rw [h] at hempty
    exact hw.superblock.1 (by rw [hSB]; exact hempty)
  have hcur0 : f.current_block ≠ 0 := by have := hw.cur_ne; rwa [hSB] at this
  have hextcur : ext ≠ f.current_block := by
    intro h
    rw [h] at hempty
    exact hw.cur_used hempty
  have hextnode : ext ≠ f.file_block := by
    intro h
    rw [h] at hempty
    exact hw.node_used hempty
  have hsb : ((m.put ext (encodeExtend Z80FS_FNODE_FEXTEND)).put f.current_block
      (setExtend f.block_data ext)).data 0 = m.data 0 := by
    rw [put_data_ne _ _ _ _ (Ne.symm hcur0), put_data_ne _ _ _ _ (Ne.symm hext0)]
  have htagext : getType (encodeExtend Z80FS_FNODE_FEXTEND) ≠ Z80FS_FNODE_EMPTY := by
    rw [getType_eq, encodeExtend_apply, hFE, hE]; decide
  have htagcur : getType (setExtend f.block_data ext) ≠ Z80FS_FNODE_EMPTY := by
    have := hw.buf_used
    rw [getType_eq] at this ⊢
    rw [setExtend_apply]
    simpa using this
  refine
    { mode := hw.mode
      device := hw.device
      superblock := ?_
      cur_ne := by rw [hSB]; exact hext0
      cur_lt := ?_
      cur_used := ?_
      buf_used := ?_
      node_lt := hw.node_lt
      node_used := ?_
      ptr_le := ?_
      ptr_ge := ?_
      ptr_node := ?_
      size_lt := by show toUInt16 (f.size + 1) < 65536; unfold toUInt16; omega }
  · rw [hSB, hsb]
    have := hw.superblock
    rw [hSB] at this
    exact this
  · show ext < m.size
    have := hw.superblock.2
    omega
  · show getType (((m.put ext (encodeExtend Z80FS_FNODE_FEXTEND)).put f.current_block
      (setExtend f.block_data ext)).data ext) ≠ Z80FS_FNODE_EMPTY
    rw [put_data_ne _ _ _ _ hextcur, put_data_same]
    exact htagext
  · show getType (setU8 (encodeExtend Z80FS_FNODE_FEXTEND) (Z80FS_FIRST_EXT_BYTE 0) b) ≠
      Z80FS_FNODE_EMPTY
    rw [getType_eq, setU8_apply, hFB, encodeExtend_apply, hFE, hE]
    simp
  · show getType (((m.put ext (encodeExtend Z80FS_FNODE_FEXTEND)).put f.current_block
      (setExtend f.block_data ext)).data f.file_block) ≠ Z80FS_FNODE_EMPTY
    by_cases hc : f.file_block = f.current_block
    · rw [hc, put_data_same]
      exact htagcur
    · rw [put_data_ne _ _ _ _ hc, put_data_ne _ _ _ _ (Ne.symm hextnode)]
      exact hw.node_used
  · show Z80FS_FIRST_EXT_BYTE 0 + 1 ≤ B
    rw [hFB]; omega
  · show 4 ≤ Z80FS_FIRST_EXT_BYTE 0 + 1
    rw [hFB]; omega
  · intro h
    exact absurd h hextnode

theorem grows_cross (B : Nat) (m : Medium) (f : file_t) (b ext : Nat) (m2 : Medium) (f2 : file_t)
    (hw : Writing B m f) (hempty : getType (m.data ext) = Z80FS_FNODE_EMPTY)
    (hg : Grows ((m.put ext (encodeExtend Z80FS_FNODE_FEXTEND)).put f.current_block
        (setExtend f.block_data ext))
      { f with current_block := ext,
               block_data := setU8 (encodeExtend Z80FS_FNODE_FEXTEND) (Z80FS_FIRST_EXT_BYTE 0) b,
               data_pointer := Z80FS_FIRST_EXT_BYTE 0 + 1,
               size := toUInt16 (f.size + 1) } m2 f2) :
    Grows m f m2 f2 ∧ m2.data f.current_block = setExtend f.block_data ext ∧
      f.current_block ≠ f2.current_block := by
  have hextcur : ext ≠ f.current_block := by
    intro h
    rw [h] at hempty
    exact hw.cur_used hempty
  have htagcur : getType (setExtend f.block_data ext) ≠ Z80FS_FNODE_EMPTY := by
    have := hw.buf_used
    rw [getType_eq] at this ⊢
    rw [setExtend_apply]
    simpa using this
  have hcur := hg.frame f.current_block (by rw [put_size, put_size]; exact hw.cur_lt)
    (by rw [put_data_same]; exact htagcur) (Ne.symm hextcur)
  rw [put_data_same] at hcur
  refine ⟨?_, hcur.1, hcur.2⟩
  refine
    { size_eq := by rw [hg.size_eq]; rfl
      node_eq := hg.node_eq
      frame := ?_
      kept := ?_ }
  · intro block h1 h2 h3
    have hbe : block ≠ ext := by
      intro h
      rw [h] at h2
      exact h2 hempty
    have h := hg.frame block (by rw [put_size, put_size]; exact h1)
      (by rw [put_data_ne _ _ _ _ h3, put_data_ne _ _ _ _ hbe]; exact h2) hbe
    rw [put_data_ne _ _ _ _ h3, put_data_ne _ _ _ _ hbe] at h
    exact h
  · intro off _ h2 h3
    have hv : view m2 f2 f.current_block = m2.data f.current_block := by
      simp [view, hcur.2]
    rw [hv, hcur.1, setExtend_apply]
    simp [h2, h3]

theorem fs_read_byte_inside (B : Nat) (mf : Medium) (r : file_t) (hm : r.mode = MODE_READ)
    (hs : r.size ≠ 0) (hp : r.data_pointer < B) :
    fs_read_byte B mf r = (error_t.Z80FS_OK,
      { r with data_pointer := r.data_pointer + 1, size := r.size - 1 },
      r.block_data r.data_pointer) := by
  simp [fs_read_byte, hm, hs, hp]

theorem fs_read_byte_cross (B : Nat) (mf : Medium) (r : file_t) (hm : r.mode = MODE_READ)
    (hs : r.size ≠ 0) (hp : ¬ r.data_pointer < B) (he : getExtend r.block_data ≠ Z80FS_EMPTY)
    (hlt : getExtend r.block_data < mf.size) :
    fs_read_byte B mf r = (error_t.Z80FS_OK,
      { r with current_block := getExtend r.block_data,
               block_data := mf.data (getExtend r.block_data),
               data_pointer := Z80FS_FIRST_EXT_BYTE 0 + 1,
               size := r.size - 1 },
      mf.data (getExtend r.block_data) (Z80FS_FIRST_EXT_BYTE 0)) := by
  simp [fs_read_byte, hm, hs, hp, he, readBlock_lt mf _ hlt]


/-- Writing a byte sequence with enough free blocks succeeds, and reading as
many bytes from where the writer stood, on a medium that holds what was
written, gives the sequence back. -/
theorem write_then_read (B : Nat) (hB : 18 ≤ B) : ∀ (bs : List Nat) (m : Medium) (f : file_t)
    (k : Nat), Writing B m f → (∀ b ∈ bs, b < 256) → k ≤ freeCount m →
    bs.length ≤ (B - f.data_pointer) + k * (B - 4) →
    ∃ m2 f2, writeBytes B m f bs = (error_t.Z80FS_OK, m2, f2) ∧ Writing B m2 f2 ∧
      Grows m f m2 f2 ∧ f2.size = (f.size + bs.length) % 65536 ∧
      freeCount m ≤ freeCount m2 + k ∧
      ∀ mf, Flushed mf m2 f2 → ∀ r, Coupled r f mf → bs.length ≤ r.size →
        ∃ r2, readBytesLoop B mf bs.length r = (error_t.Z80FS_OK, r2, bs) ∧
          Coupled r2 f2 mf ∧ r2.size = r.size - bs.length := by
  intro bs
  induction bs with
  | nil =>
    intro m f k hw _ _ _
    refine ⟨m, f, rfl, hw, grows_refl m f, ?_, by omega, ?_⟩
    · have := hw.size_lt
      simp only [List.length_nil, Nat.add_zero]
      omega
    · intro mf _ r hc _
      exact ⟨r, rfl, hc, by simp⟩
  | cons b rest ih =>
    intro m f k hw hbytes hk hlen
    have hb : b < 256 := hbytes b (List.mem_cons_self _ _)
    have hrest : ∀ x ∈ rest, x < 256 := fun x hx => hbytes x (List.mem_cons_of_mem _ hx)
    have hp4 := hw.ptr_ge
    obtain ⟨hE, hFE, -, -, -, hEM, hSB, -⟩ := tag_consts
    obtain ⟨hFB, -, -, -⟩ := first_consts
    simp only [List.length_cons] at hlen ⊢
    by_cases hp : f.data_pointer < B
    · have hstep := fs_write_byte_inside B m f b hw.mode hp
      have hw1 := writing_inside B m f b hw hp
      obtain ⟨m2, f2, hwr, hw2, hg, hsz, hfree, hread⟩ := ih m _ k hw1 hrest hk
        (by show rest.length ≤ (B - (f.data_pointer + 1)) + k * (B - 4); omega)
      have hg0 := grows_inside m f b m2 f2 hg
      refine ⟨m2, f2, ?_, hw2, hg0, ?_, hfree, ?_⟩
      · simp only [writeBytes, hstep]
        exact hwr
      · rw [hsz]
        show (toUInt16 (f.size + 1) + rest.length) % 65536 = _
        unfold toUInt16
        omega
      · intro mf hfl r hc hr
        have hrs : r.size ≠ 0 := by omega
        have hrp : r.data_pointer < B := by rw [hc.ptr]; exact hp
        have hbyte : r.block_data r.data_pointer = b := by
          rw [hc.data, hc.ptr]
          rw [hfl.same f.current_block f.data_pointer (fun h => by
            have h2 : f.current_block = f.file_block := by rw [h, hg0.node_eq]
            have := hw.ptr_node h2
            omega)]
          have h := hg.kept f.data_pointer (by show f.data_pointer < f.data_pointer + 1; omega)
            (by omega) (by omega)
          rw [show view m2 f2 f.current_block f.data_pointer = _ from h]
          show setU8 f.block_data f.data_pointer b f.data_pointer = b
          rw [setU8_apply]
          simp only [if_true]
          exact Nat.mod_eq_of_lt hb
        have hrstep := fs_read_byte_inside B mf r hc.mode hrs hrp
        obtain ⟨r2, hrd, hc2, hs2⟩ := hread mf hfl
          { r with data_pointer := r.data_pointer + 1, size := r.size - 1 }
          ⟨hc.mode, hc.block, by show r.data_pointer + 1 = f.data_pointer + 1; rw [hc.ptr],
            hc.data⟩
          (by show rest.length ≤ r.size - 1; omega)
        refine ⟨r2, ?_, hc2, ?_⟩
        · simp only [readBytesLoop, hrstep, hrd, hbyte]
        · rw [hs2]
          show r.size - 1 - rest.length = _
          omega
    · have hk1 : 1 ≤ k := by
        rcases Nat.eq_zero_or_pos k with h | h
        · subst h
          have : f.data_pointer ≤ B := hw.ptr_le
          omega
        · exact h
      obtain ⟨k2, rfl⟩ : ∃ k2, k = k2 + 1 := ⟨k - 1, by omega⟩
      obtain ⟨ext, ha, hlt, hempty⟩ := allocate_spec m hw.device.1 hw.superblock.2 (by omega)
      have he : ext < m.size := by have := hw.superblock.2; omega
      have he16 : ext < 65536 := by have := hw.device.2; omega
      have hext0 : ext ≠ 0 := by
        intro h
        rw [h] at hempty
        exact hw.superblock.1 (by rw [hSB]; exact hempty)
      have hcur0 : f.current_block ≠ 0 := by have := hw.cur_ne; rwa [hSB] at this
      have hextcur : ext ≠ f.current_block := by
        intro h
        rw [h] at hempty
        exact hw.cur_used hempty
      have hstep := fs_write_byte_cross B m f b ext hw.mode hp ha he hw.cur_lt
      have hw1 := writing_cross B hB m f b ext hw hlt hempty
      have hf1 := freeCount_put_le m ext (encodeExtend Z80FS_FNODE_FEXTEND) hext0
      have hf2 := freeCount_put_used (m.put ext (encodeExtend Z80FS_FNODE_FEXTEND))
        f.current_block (setExtend f.block_data ext) hcur0
        (by rw [put_data_ne _ _ _ _ (Ne.symm hextcur)]; exact hw.cur_used)
      have hple : f.data_pointer ≤ B := hw.ptr_le
      have hmul : (k2 + 1) * (B - 4) = k2 * (B - 4) + (B - 4) := Nat.succ_mul _ _
      obtain ⟨m2, f2, hwr, hw2, hg, hsz, hfree, hread⟩ := ih _ _ k2 hw1 hrest (by omega)
        (by
          show rest.length ≤ (B - (Z80FS_FIRST_EXT_BYTE 0 + 1)) + k2 * (B - 4)
          rw [hFB]
          rw [hmul] at hlen
          omega)
      obtain ⟨hg0, hcurdata, hcurne⟩ := grows_cross B m f b ext m2 f2 hw hempty hg
      refine ⟨m2, f2, ?_, hw2, hg0, ?_, by omega, ?_⟩
      · simp only [writeBytes, hstep]
        exact hwr
      · rw [hsz]
        show (toUInt16 (f.size + 1) + rest.length) % 65536 = _
        unfold toUInt16
        omega
      · intro mf hfl r hc hr
        have hrs : r.size ≠ 0 := by omega
        have hrp : ¬ r.data_pointer < B := by rw [hc.ptr]; exact hp
        have hview : ∀ off, off ≠ 16 → off ≠ 17 →
            mf.data f.current_block off = setExtend f.block_data ext off := by
          intro off h16 h17
          rw [hfl.same f.current_block off (fun _ => ⟨h16, h17⟩)]
          simp only [view, hcurne, if_false]
          rw [hcurdata]
        have hext : getExtend r.block_data = ext := by
          rw [hc.data, getExtend_eq, hview 1 (by omega) (by omega), hview 2 (by omega) (by omega),
            ← getExtend_eq]
          exact getExtend_setExtend _ _ he16
        have hbyte : mf.data ext (Z80FS_FIRST_EXT_BYTE 0) = b := by
          rw [hFB, hfl.same ext 4 (fun _ => ⟨by omega, by omega⟩)]
          have h := hg.kept 4 (by show 4 < Z80FS_FIRST_EXT_BYTE 0 + 1; rw [hFB]; omega)
            (by omega) (by omega)
          rw [show view m2 f2 ext 4 = _ from h]
          show setU8 (encodeExtend Z80FS_FNODE_FEXTEND) (Z80FS_FIRST_EXT_BYTE 0) b 4 = b
          rw [hFB, setU8_apply]
          simp only [if_true]
          exact Nat.mod_eq_of_lt hb
        have hmfsize : mf.size = m.size := by
          rw [hfl.size_eq, hg0.size_eq]
        have hrstep := fs_read_byte_cross B mf r hc.mode hrs hrp
          (by rw [hext, hEM]; exact hext0) (by rw [hext, hmfsize]; exact he)
        rw [hext] at hrstep
        obtain ⟨r2, hrd, hc2, hs2⟩ := hread mf hfl
          { r with current_block := ext, block_data := mf.data ext,
                   data_pointer := Z80FS_FIRST_EXT_BYTE 0 + 1, size := r.size - 1 }
          ⟨hc.mode, rfl, rfl, rfl⟩
          (by show rest.length ≤ r.size - 1; omega)
        refine ⟨r2, ?_, hc2, ?_⟩
        · simp only [readBytesLoop, hrstep, hrd, hbyte]
        · rw [hs2]
          show r.size - 1 - rest.length = _
          omega


/-! ## Lemmas: traversal of a directory -/

theorem scanSlots_none (test : Nat → Except error_t Bool) (buf : Buffer) :
    ∀ offs : List Nat, (∀ o ∈ offs, test (getU16 buf o) = .ok false) →
      scanSlots test buf offs = .ok none := by
  intro offs
  induction offs with
  | nil => intro _; rfl
  | cons o rest ih =>
    intro h
    simp only [scanSlots, h o (List.mem_cons_self _ _)]
    exact ih (fun o2 h2 => h o2 (List.mem_cons_of_mem _ h2))

theorem scanSlots_some (test : Nat → Except error_t Bool) (buf : Buffer) (off : Nat)
    (o2 : List Nat) : ∀ o1 : List Nat, (∀ o ∈ o1, test (getU16 buf o) = .ok false) →
      test (getU16 buf off) = .ok true →
      scanSlots test buf (o1 ++ off :: o2) = .ok (some off) := by
  intro o1
  induction o1 with
  | nil => intro _ h; simp only [List.nil_append, scanSlots, h]
  | cons o rest ih =>
    intro h ht
    simp only [List.cons_append, scanSlots, h o (List.mem_cons_self _ _)]
    exact ih (fun o3 h3 => h o3 (List.mem_cons_of_mem _ h3)) ht

theorem chainSlots_append (B : Nat) : ∀ (pre rest : List Nat) (first : Nat),
    chainSlots B first (pre ++ rest) =
      chainSlots B first pre ++
        chainSlots B (if pre = [] then first else Z80FS_FIRST_EXT_ENTRY 0) rest := by
  intro pre
  induction pre with
  | nil => intro rest first; simp [chainSlots]
  | cons b pre ih =>
    intro rest first
    have h := ih rest (Z80FS_FIRST_EXT_ENTRY 0)
    simp only [ite_self] at h
    simp only [List.cons_append, chainSlots, List.append_assoc]
    simp
    exact h

/-- A traversal that finds nothing in a whole chain ends at its last block. -/
theorem scanDir_tail (B : Nat) (m : Medium) (test : Nat → Except error_t Bool) :
    ∀ (chain : List Nat) (fuel block first : Nat), IsPath m (block :: chain) →
      getExtend (m.data ((block :: chain).getLast (List.cons_ne_nil _ _))) = Z80FS_EMPTY →
      chain.length ≤ fuel →
      (∀ p ∈ chainSlots B first (block :: chain), test (getU16 (m.data p.1) p.2) = .ok false) →
      scanDir B m test fuel block (m.data block) first =
        .ok (.tail ((block :: chain).getLast (List.cons_ne_nil _ _))
          (m.data ((block :: chain).getLast (List.cons_ne_nil _ _)))) := by
  intro chain
  induction chain with
  | nil =>
    intro fuel block first _ hend _ hslots
    have hs : scanSlots test (m.data block) (slotOffsets B first) = .ok none :=
      scanSlots_none test _ _ (fun o ho => hslots (block, o) (by simp [chainSlots, ho]))
    simp only [List.getLast_singleton] at hend ⊢
    cases fuel <;> simp only [scanDir, hs, hend, if_true]
  | cons c rest ih =>
    intro fuel block first hpath hend hfuel hslots
    obtain ⟨hext, hne, hlt, hrest⟩ := hpath
    have hs : scanSlots test (m.data block) (slotOffsets B first) = .ok none :=
      scanSlots_none test _ _ (fun o ho => hslots (block, o) (by simp [chainSlots, ho]))
    obtain ⟨fuel2, rfl⟩ : ∃ fuel2, fuel = fuel2 + 1 :=
      ⟨fuel - 1, by simp only [List.length_cons] at hfuel; omega⟩
    have hlast : (block :: c :: rest).getLast (List.cons_ne_nil _ _) =
        (c :: rest).getLast (List.cons_ne_nil _ _) := List.getLast_cons (List.cons_ne_nil _ _)
    have hi := ih fuel2 c (Z80FS_FIRST_EXT_ENTRY 0) hrest (by rw [← hlast]; exact hend)
      (by simp only [List.length_cons] at hfuel; omega)
      (fun p hp => hslots p (by
        simp only [chainSlots, List.mem_append] at hp ⊢
        exact Or.inr hp))
    simp only [scanDir, hs, hext, hne, if_false, readBlock_lt m c hlt, hlast]
    exact hi

/-- A traversal that finds nothing in the blocks before a block, and in that
block nothing before a slot which passes the test, ends at this slot. -/
theorem scanDir_found (B : Nat) (m : Medium) (test : Nat → Except error_t Bool)
    (target off : Nat) (o1 o2 : List Nat) :
    ∀ (pre : List Nat) (fuel first : Nat), IsPath m (pre ++ [target]) →
      pre.length ≤ fuel →
      (∀ p ∈ chainSlots B first pre, test (getU16 (m.data p.1) p.2) = .ok false) →
      slotOffsets B (if pre = [] then first else Z80FS_FIRST_EXT_ENTRY 0) = o1 ++ off :: o2 →
      (∀ o ∈ o1, test (getU16 (m.data target) o) = .ok false) →
      test (getU16 (m.data target) off) = .ok true →
      scanDir B m test fuel ((pre ++ [target]).head (by simp))
          (m.data ((pre ++ [target]).head (by simp))) first =
        .ok (.found target (m.data target) off) := by
  intro pre
  induction pre with
  | nil =>
    intro fuel first _ _ _ hoffs h1 h2
    have hs : scanSlots test (m.data target) (slotOffsets B first) = .ok (some off) := by
      simp only [if_true] at hoffs
      rw [hoffs]
      exact scanSlots_some test _ off o2 o1 h1 h2
    simp only [List.nil_append, List.head_cons]
    cases fuel <;> simp only [scanDir, hs]
  | cons b pre ih =>
    intro fuel first hpath hfuel hslots hoffs h1 h2
    have hs : scanSlots test (m.data b) (slotOffsets B first) = .ok none :=
      scanSlots_none test _ _ (fun o ho => hslots (b, o) (by simp [chainSlots, ho]))
    obtain ⟨fuel2, rfl⟩ : ∃ fuel2, fuel = fuel2 + 1 :=
      ⟨fuel - 1, by simp only [List.length_cons] at hfuel; omega⟩
    have hne : pre ++ [target] ≠ [] := by simp
    obtain ⟨c, rest, hcr⟩ : ∃ c rest, pre ++ [target] = c :: rest := by
      cases h : pre ++ [target] with
      | nil => exact absurd h hne
      | cons c rest => exact ⟨c, rest, rfl⟩
    have hpath2 : IsPath m (b :: c :: rest) := by
      have : b :: pre ++ [target] = b :: c :: rest := by simp [hcr]
      rw [← this]; exact hpath
    obtain ⟨hext, hne0, hlt, hrest⟩ := hpath2
    have hi := ih fuel2 (Z80FS_FIRST_EXT_ENTRY 0) (by rw [hcr]; exact hrest)
      (by simp only [List.length_cons] at hfuel; omega)
      (fun p hp => hslots p (by
        simp only [chainSlots, List.mem_append]
        exact Or.inr hp))
      (by
        have hb : (b :: pre) ≠ [] := List.cons_ne_nil _ _
        simp only [hb, if_false] at hoffs
        split <;> exact hoffs)
      h1 h2
    have hhead : (pre ++ [target]).head (by simp) = c := by
      simp only [hcr, List.head_cons]
    rw [hhead] at hi
    simp only [List.cons_append, List.head_cons]
    simp only [scanDir, hs, hext, hne0, if_false, readBlock_lt m c hlt]
    exact hi


theorem nameTest_zero (m : Medium) (name : List Nat) :
    nameTest m name Z80FS_EMPTY = .ok false := by
  simp [nameTest]

theorem nameTest_other (m : Medium) (name : List Nat) (a : Nat) (hlt : a < m.size)
    (hn : getName (m.data a) ≠ padName name) : nameTest m name a = .ok false := by
  by_cases h0 : a = Z80FS_EMPTY
  · rw [h0]; exact nameTest_zero m name
  · simp [nameTest, h0, readBlock_lt m a hlt, hn]

theorem nameTest_match (m : Medium) (name : List Nat) (a : Nat) (h0 : a ≠ Z80FS_EMPTY)
    (hlt : a < m.size) (hn : getName (m.data a) = padName name) :
    nameTest m name a = .ok true := by
  simp [nameTest, h0, readBlock_lt m a hlt, hn]

theorem freeTest_used (a : Nat) (h : a ≠ Z80FS_EMPTY) : freeTest a = .ok false := by
  simp [freeTest, h]

theorem freeTest_unused (a : Nat) (h : a = Z80FS_EMPTY) : freeTest a = .ok true := by
  simp [freeTest, h]

theorem first_zero (g : Nat → Nat) : ∀ offs : List Nat,
    (∀ o ∈ offs, g o ≠ 0) ∨
      ∃ o1 off o2, offs = o1 ++ off :: o2 ∧ (∀ o ∈ o1, g o ≠ 0) ∧ g off = 0 := by
  intro offs
  induction offs with
  | nil => left; simp
  | cons o rest ih =>
    by_cases h : g o = 0
    · right
      exact ⟨[], o, rest, rfl, by simp, h⟩
    · rcases ih with h1 | ⟨o1, off, o2, h1, h2, h3⟩
      · left
        intro x hx
        rcases List.mem_cons.1 hx with hx | hx
        · rw [hx]; exact h
        · exact h1 x hx
      · right
        refine ⟨o :: o1, off, o2, by rw [h1]; rfl, ?_, h3⟩
        intro x hx
        rcases List.mem_cons.1 hx with hx | hx
        · rw [hx]; exact h
        · exact h2 x hx

/-- Either every slot of a chain of directory blocks is used, or there is a
first unused one. -/
theorem first_free_slot (B : Nat) (m : Medium) : ∀ (chain : List Nat) (first : Nat),
    (∀ p ∈ chainSlots B first chain, getU16 (m.data p.1) p.2 ≠ 0) ∨
      ∃ pre target post o1 off o2, chain = pre ++ target :: post ∧
        slotOffsets B (if pre = [] then first else Z80FS_FIRST_EXT_ENTRY 0) = o1 ++ off :: o2 ∧
        (∀ p ∈ chainSlots B first pre, getU16 (m.data p.1) p.2 ≠ 0) ∧
        (∀ o ∈ o1, getU16 (m.data target) o ≠ 0) ∧ getU16 (m.data target) off = 0 := by
  intro chain
  induction chain with
  | nil => intro first; left; simp [chainSlots]
  | cons b rest ih =>
    intro first
    rcases first_zero (fun o => getU16 (m.data b) o) (slotOffsets B first) with
      h | ⟨o1, off, o2, h1, h2, h3⟩
    · rcases ih (Z80FS_FIRST_EXT_ENTRY 0) with h4 | ⟨pre, target, post, o1, off, o2, e1, e2, e3, e4, e5⟩
      · left
        intro p hp
        simp only [chainSlots, List.mem_append, List.mem_map] at hp
        rcases hp with ⟨o, ho, rfl⟩ | hp
        · exact h o ho
        · exact h4 p hp
      · right
        refine ⟨b :: pre, target, post, o1, off, o2, by rw [e1]; rfl, ?_, ?_, e4, e5⟩
        · simp only [List.cons_ne_nil, if_false]
          split at e2 <;> exact e2
        · intro p hp
          simp only [chainSlots, List.mem_append, List.mem_map] at hp
          rcases hp with ⟨o, ho, rfl⟩ | hp
          · exact h o ho
          · exact e3 p hp
    · right
      exact ⟨[], b, rest, o1, off, o2, rfl, by simpa using h1, by simp [chainSlots], h2, h3⟩

theorem isPath_of_isChain (m : Medium) : ∀ (chain : List Nat), IsChain m chain →
    (∀ c ∈ chain, c < m.size) →
    IsPath m chain ∧ ∃ h : chain ≠ [], getExtend (m.data (chain.getLast h)) = Z80FS_EMPTY := by
  intro chain
  induction chain with
  | nil => intro h; exact absurd h (by simp [IsChain])
  | cons b rest ih =>
    intro hc hlt
    cases rest with
    | nil => exact ⟨trivial, List.cons_ne_nil _ _, by simpa [IsChain] using hc⟩
    | cons c rest =>
      obtain ⟨h1, h2, h3⟩ := hc
      obtain ⟨h4, h5, h6⟩ := ih h3 (fun x hx => hlt x (List.mem_cons_of_mem _ hx))
      refine ⟨⟨h1, h2, hlt c (by simp), h4⟩, List.cons_ne_nil _ _, ?_⟩
      rw [List.getLast_cons h5]
      exact h6

theorem isPath_congr (m m2 : Medium) (hsize : m2.size = m.size) : ∀ (chain : List Nat),
    (∀ c ∈ chain.dropLast, getExtend (m2.data c) = getExtend (m.data c)) →
    IsPath m chain → IsPath m2 chain := by
  intro chain
  induction chain with
  | nil => intro _ _; trivial
  | cons b rest ih =>
    intro hsame hp
    cases rest with
    | nil => trivial
    | cons c rest =>
      obtain ⟨h1, h2, h3, h4⟩ := hp
      refine ⟨?_, h2, by rw [hsize]; exact h3, ?_⟩
      · rw [hsame b (by simp [List.dropLast]), h1]
      · exact ih (fun x hx => hsame x (by
          simp only [List.dropLast_cons₂, List.mem_cons]
          exact Or.inr hx)) h4

theorem isPath_init (m : Medium) (target : Nat) (post : List Nat) : ∀ (pre : List Nat),
    IsPath m (pre ++ target :: post) → IsPath m (pre ++ [target]) := by
  intro pre
  induction pre with
  | nil => intro _; trivial
  | cons b pre ih =>
    intro hp
    cases pre with
    | nil =>
      obtain ⟨h1, h2, h3, _⟩ := hp
      exact ⟨h1, h2, h3, trivial⟩
    | cons c pre =>
      obtain ⟨h1, h2, h3, h4⟩ := hp
      exact ⟨h1, h2, h3, ih h4⟩

theorem isPath_snoc (m : Medium) (ext : Nat) (h0 : ext ≠ Z80FS_EMPTY) (hlt : ext < m.size) :
    ∀ (chain : List Nat) (hne : chain ≠ []), IsPath m chain →
      getExtend (m.data (chain.getLast hne)) = ext → IsPath m (chain ++ [ext]) := by
  intro chain
  induction chain with
  | nil => intro h; exact absurd rfl h
  | cons b rest ih =>
    intro _ hp hlast
    cases rest with
    | nil => exact ⟨by simpa using hlast, h0, hlt, trivial⟩
    | cons c rest =>
      obtain ⟨h1, h2, h3, h4⟩ := hp
      refine ⟨h1, h2, h3, ih (List.cons_ne_nil _ _) h4 ?_⟩
      rw [List.getLast_cons (List.cons_ne_nil _ _)] at hlast
      exact hlast

/-- Pigeonhole: a chain without repetition of blocks below n has at most n blocks. -/
theorem chain_length_le (chain : List Nat) (n : Nat) (hnd : chain.Nodup)
    (hlt : ∀ c ∈ chain, c < n) : chain.length ≤ n := by
  have h1 : chain.toFinset ⊆ Finset.range n := by
    intro x hx
    exact Finset.mem_range.2 (hlt x (List.mem_toFinset.1 hx))
  have h2 := Finset.card_le_card h1
  rw [List.toFinset_card_of_nodup hnd, Finset.card_range] at h2
  exact h2


theorem head_snoc_eq (pre post : List Nat) (target cwd : Nat) (rest : List Nat)
    (h : cwd :: rest = pre ++ target :: post) :
    (pre ++ [target]).head (by simp) = cwd := by
  cases pre with
  | nil =>
    simp only [List.nil_append, List.cons.injEq] at h
    simp [h.1]
  | cons b pre =>
    simp only [List.cons_append, List.cons.injEq] at h
    simp [h.1]

/-- The directory engine find returns the node of the first slot whose node
carries the name. -/
theorem find_found (B : Nat) (mf : Medium) (cwd : Nat) (name : List Nat)
    (pre : List Nat) (target off : Nat) (o1 o2 : List Nat) (nb : Nat)
    (h0 : 0 < mf.size) (hcwd : cwd < mf.size)
    (hhead : (pre ++ [target]).head (by simp) = cwd)
    (hpath : IsPath mf (pre ++ [target]))
    (hfuel : pre.length ≤ numBlocks (mf.data Z80FS_SUPERBLOCK))
    (hpre : ∀ p ∈ chainSlots B (Z80FS_FIRST_DIR_ENTRY 0) pre,
      nameTest mf name (getU16 (mf.data p.1) p.2) = .ok false)
    (hoffs : slotOffsets B (if pre = [] then Z80FS_FIRST_DIR_ENTRY 0
      else Z80FS_FIRST_EXT_ENTRY 0) = o1 ++ off :: o2)
    (ho1 : ∀ o ∈ o1, nameTest mf name (getU16 (mf.data target) o) = .ok false)
    (hent : getU16 (mf.data target) off = nb) (hnb0 : nb ≠ Z80FS_EMPTY) (hnblt : nb < mf.size)
    (hname : getName (mf.data nb) = padName name) :
    find B mf cwd name = .ok nb := by
  have hs := scanDir_found B mf (nameTest mf name) target off o1 o2 pre
    (numBlocks (mf.data Z80FS_SUPERBLOCK)) (Z80FS_FIRST_DIR_ENTRY 0) hpath hfuel hpre hoffs ho1
    (by rw [hent]; exact nameTest_match mf name nb hnb0 hnblt hname)
  rw [hhead] at hs
  have hsb : readBlock mf Z80FS_SUPERBLOCK = some (mf.data Z80FS_SUPERBLOCK) :=
    readBlock_lt mf _ h0
  simp only [find, scanDirectory, hsb, readBlock_lt mf cwd hcwd, hs, hent]

/-- Placing an entry succeeds: into the first unused slot of the directory, or
into a new extend block when every slot is used and a block is free. -/
theorem placeEntry_spec (B : Nat) (m : Medium) (cwd nb : Nat) (rest : List Nat)
    (h0 : 0 < m.size) (hn : numBlocks (m.data Z80FS_SUPERBLOCK) ≤ m.size)
    (hfree : 0 < freeCount m) (hpath : IsPath m (cwd :: rest))
    (hend : getExtend (m.data ((cwd :: rest).getLast (List.cons_ne_nil _ _))) = Z80FS_EMPTY)
    (hfuel : rest.length ≤ numBlocks (m.data Z80FS_SUPERBLOCK))
    (hlt : ∀ c ∈ cwd :: rest, c < m.size) :
    (∃ pre target post o1 off o2, cwd :: rest = pre ++ target :: post ∧
        slotOffsets B (if pre = [] then Z80FS_FIRST_DIR_ENTRY 0
          else Z80FS_FIRST_EXT_ENTRY 0) = o1 ++ off :: o2 ∧
        (∀ p ∈ chainSlots B (Z80FS_FIRST_DIR_ENTRY 0) pre, getU16 (m.data p.1) p.2 ≠ 0) ∧
        (∀ o ∈ o1, getU16 (m.data target) o ≠ 0) ∧ getU16 (m.data target) off = 0 ∧
        placeEntry B m cwd nb =
          (error_t.Z80FS_OK, m.put target (setU16 (m.data target) off nb))) ∨
      ((∀ p ∈ chainSlots B (Z80FS_FIRST_DIR_ENTRY 0) (cwd :: rest),
          getU16 (m.data p.1) p.2 ≠ 0) ∧
        ∃ ext, ext < numBlocks (m.data Z80FS_SUPERBLOCK) ∧
          getType (m.data ext) = Z80FS_FNODE_EMPTY ∧
          placeEntry B m cwd nb = (error_t.Z80FS_OK,
            (m.put ext (setU16 (encodeExtend Z80FS_FNODE_DIREXTEND)
              (Z80FS_FIRST_EXT_ENTRY 0) nb)).put
              ((cwd :: rest).getLast (List.cons_ne_nil _ _))
              (setExtend (m.data ((cwd :: rest).getLast (List.cons_ne_nil _ _))) ext))) := by
  have hEM : Z80FS_EMPTY = 0 := rfl
  have hsb : readBlock m Z80FS_SUPERBLOCK = some (m.data Z80FS_SUPERBLOCK) :=
    readBlock_lt m _ h0
  have hcwd : cwd < m.size := hlt cwd (List.mem_cons_self _ _)
  rcases first_free_slot B m (cwd :: rest) (Z80FS_FIRST_DIR_ENTRY 0) with
    hall | ⟨pre, target, post, o1, off, o2, e1, e2, e3, e4, e5⟩
  · right
    refine ⟨hall, ?_⟩
    have hs := scanDir_tail B m freeTest rest (numBlocks (m.data Z80FS_SUPERBLOCK)) cwd
      (Z80FS_FIRST_DIR_ENTRY 0) hpath hend hfuel
      (fun p hp => freeTest_used _ (by rw [hEM]; exact hall p hp))
    obtain ⟨ext, ha, hlt2, hempty⟩ := allocate_spec m h0 hn hfree
    refine ⟨ext, hlt2, hempty, ?_⟩
    have hlast : (cwd :: rest).getLast (List.cons_ne_nil _ _) < m.size :=
      hlt _ (List.getLast_mem _)
    have hw1 := writeBlock_lt m ext (setU16 (encodeExtend Z80FS_FNODE_DIREXTEND)
      (Z80FS_FIRST_EXT_ENTRY 0) nb) (by omega)
    have hw2 := writeBlock_lt (m.put ext (setU16 (encodeExtend Z80FS_FNODE_DIREXTEND)
      (Z80FS_FIRST_EXT_ENTRY 0) nb)) ((cwd :: rest).getLast (List.cons_ne_nil _ _))
      (setExtend (m.data ((cwd :: rest).getLast (List.cons_ne_nil _ _))) ext)
      (by rw [put_size]; exact hlast)
    simp only [placeEntry, scanDirectory, hsb, readBlock_lt m cwd hcwd, hs, ha, hw1, hw2]
  · left
    refine ⟨pre, target, post, o1, off, o2, e1, e2, e3, e4, e5, ?_⟩
    have hpath2 : IsPath m (pre ++ [target]) := by
      apply isPath_init m target post pre
      rw [← e1]; exact hpath
    have hlen : pre.length ≤ rest.length := by
      have := congrArg List.length e1
      simp only [List.length_cons, List.length_append] at this
      omega
    have hs := scanDir_found B m freeTest target off o1 o2 pre
      (numBlocks (m.data Z80FS_SUPERBLOCK)) (Z80FS_FIRST_DIR_ENTRY 0) hpath2 (by omega)
      (fun p hp => freeTest_used _ (by rw [hEM]; exact e3 p hp)) e2
      (fun o ho => freeTest_used _ (by rw [hEM]; exact e4 o ho))
      (freeTest_unused _ (by rw [hEM]; exact e5))
    rw [head_snoc_eq pre post target cwd rest e1] at hs
    have htlt : target < m.size := hlt target (by rw [e1]; simp)
    have hw1 := writeBlock_lt m target (setU16 (m.data target) off nb) htlt
    simp only [placeEntry, scanDirectory, hsb, readBlock_lt m cwd hcwd, hs, hw1]


theorem mem_slotOffsets (B first o : Nat) (h : o ∈ slotOffsets B first) : first ≤ o := by
  simp only [slotOffsets, List.mem_map, List.mem_range] at h
  obtain ⟨i, _, rfl⟩ := h
  omega

theorem slotOffsets_pairwise (B first : Nat) :
    (slotOffsets B first).Pairwise (fun a b => a + 2 ≤ b) := by
  unfold slotOffsets
  rw [List.pairwise_map]
  have h2 : block_t.size = 2 := rfl
  rw [h2]
  exact (List.pairwise_lt_range _).imp (fun {a b} hab => by omega)

theorem slotOffsets_before (B first off : Nat) (o1 o2 : List Nat)
    (h : slotOffsets B first = o1 ++ off :: o2) : ∀ o ∈ o1, o + 2 ≤ off := by
  have hp := slotOffsets_pairwise B first
  rw [h, List.pairwise_append] at hp
  intro o ho
  exact hp.2.2 o ho off (List.mem_cons_self _ _)

theorem slotOffsets_mem_of_eq (B first off : Nat) (o1 o2 : List Nat)
    (h : slotOffsets B first = o1 ++ off :: o2) :
    (∀ o ∈ o1, o ∈ slotOffsets B first) ∧ off ∈ slotOffsets B first := by
  rw [h]
  exact ⟨fun o ho => List.mem_append_left _ ho, by simp⟩

theorem slotOffsets_ext (B : Nat) (hB : 18 ≤ B) :
    ∃ o2, slotOffsets B (Z80FS_FIRST_EXT_ENTRY 0) = [] ++ Z80FS_FIRST_EXT_ENTRY 0 :: o2 := by
  have h2 : block_t.size = 2 := rfl
  have h4 : Z80FS_FIRST_EXT_ENTRY 0 = 4 := rfl
  obtain ⟨n, hn⟩ : ∃ n, (B - 4) / 2 = n + 1 := ⟨(B - 4) / 2 - 1, by omega⟩
  refine ⟨(List.range n).map (fun i => 4 + 2 * (i + 1)), ?_⟩
  simp only [slotOffsets, h2, h4, hn, List.range_succ_eq_map, List.map_cons, List.map_map,
    List.nil_append]
  rfl

theorem mem_chainSlots (B : Nat) : ∀ (chain : List Nat) (first : Nat) (p : Nat × Nat),
    p ∈ chainSlots B first chain → 4 ≤ first → p.1 ∈ chain ∧ 4 ≤ p.2 := by
  intro chain
  induction chain with
  | nil => intro first p h; simp [chainSlots] at h
  | cons b rest ih =>
    intro first p h hf
    simp only [chainSlots, List.mem_append, List.mem_map] at h
    rcases h with ⟨o, ho, rfl⟩ | h
    · exact ⟨List.mem_cons_self _ _, by have := mem_slotOffsets B first o ho; omega⟩
    · have := ih (Z80FS_FIRST_EXT_ENTRY 0) p h (by decide)
      exact ⟨List.mem_cons_of_mem _ this.1, this.2⟩

theorem mem_activeEntries (B : Nat) (m : Medium) (chain : List Nat) (p : Nat × Nat)
    (hp : p ∈ chainSlots B (Z80FS_FIRST_DIR_ENTRY 0) chain)
    (hne : getU16 (m.data p.1) p.2 ≠ 0) :
    getU16 (m.data p.1) p.2 ∈ activeEntries B m chain := by
  simp only [activeEntries, List.mem_filter, List.mem_map]
  exact ⟨⟨p, hp, rfl⟩, by simpa [Z80FS_EMPTY] using hne⟩

theorem isPath_ne_zero (m : Medium) : ∀ (rest : List Nat) (b : Nat), IsPath m (b :: rest) →
    ∀ c ∈ rest, c ≠ Z80FS_EMPTY := by
  intro rest
  induction rest with
  | nil => intro _ _ c hc; simp at hc
  | cons d rest ih =>
    intro b hp c hc
    obtain ⟨_, h2, _, h4⟩ := hp
    rcases List.mem_cons.1 hc with h | h
    · rw [h]; exact h2
    · exact ih d h4 c h

theorem nodup_split (pre post : List Nat) (target : Nat)
    (h : (pre ++ target :: post).Nodup) : ∀ c ∈ pre, c ≠ target := by
  intro c hc heq
  rw [List.nodup_append] at h
  exact h.2.2 hc (by rw [heq]; exact List.mem_cons_self _ _)

theorem superblock_tag (B : Nat) (m : Medium) (cwd : Nat) (name chain : List Nat)
    (wf : WellFormed B m cwd name chain) :
    getType (m.data Z80FS_SUPERBLOCK) = Z80FS_VER1 := wf.superblock.1

/-- Facts about a well-formed medium used below. -/
theorem wellFormed_facts (B : Nat) (m : Medium) (cwd : Nat) (name chain : List Nat)
    (wf : WellFormed B m cwd name chain) :
    (∃ rest, chain = cwd :: rest) ∧ (∀ c ∈ chain, c < m.size) ∧ IsPath m chain ∧
    (∃ h : chain ≠ [], getExtend (m.data (chain.getLast h)) = Z80FS_EMPTY) ∧
    chain.length ≤ numBlocks (m.data Z80FS_SUPERBLOCK) ∧
    (∀ c ∈ chain, c ≠ 0) ∧ Z80FS_SUPERBLOCK ∉ chain := by
  obtain ⟨hE, hFE, hFI, hDI, hDE, hEM, hSB, hV⟩ := tag_consts
  have hlt : ∀ c ∈ chain, c < m.size := fun c hc => by
    have := (wf.blocks c hc).1
    have := wf.superblock.2
    omega
  obtain ⟨hpath, hend⟩ := isPath_of_isChain m chain wf.linked hlt
  have hrest : ∃ rest, chain = cwd :: rest := by
    have hh := wf.head
    cases hc : chain with
    | nil => rw [hc] at hh; simp at hh
    | cons b rest =>
      rw [hc] at hh
      simp only [List.head?_cons, Option.some.injEq] at hh
      exact ⟨rest, by rw [hh]⟩
  have hne0 : ∀ c ∈ chain, c ≠ 0 := by
    obtain ⟨rest, hr⟩ := hrest
    intro c hc
    rw [hr] at hc hpath
    rcases List.mem_cons.1 hc with h | h
    · intro h0
      have h1 := superblock_tag B m cwd name chain wf
      have h2 := wf.directory
      rw [hSB] at h1
      rw [← h, h0, h1, hV, hDI] at h2
      omega
    · have := isPath_ne_zero m rest cwd hpath c h
      rwa [hEM] at this
  refine ⟨hrest, hlt, hpath, hend, ?_, hne0, ?_⟩
  · exact chain_length_le chain _ wf.nodup (fun c hc => (wf.blocks c hc).1)
  · intro h
    exact hne0 _ h hSB

/-- On a well-formed medium on which the name is new, find does not find it. -/
theorem find_notfound (B : Nat) (m : Medium) (cwd : Nat) (name chain : List Nat)
    (wf : WellFormed B m cwd name chain) :
    find B m cwd name = .error error_t.Z80FS_E_NOTFOUND := by
  obtain ⟨⟨rest, hr⟩, hlt, hpath, ⟨hne, hend⟩, hlen, -, -⟩ := wellFormed_facts B m cwd name chain wf
  subst hr
  have hsb : readBlock m Z80FS_SUPERBLOCK = some (m.data Z80FS_SUPERBLOCK) :=
    readBlock_lt m _ wf.device.1
  have hcwd : cwd < m.size := hlt cwd (List.mem_cons_self _ _)
  have hs := scanDir_tail B m (nameTest m name) rest (numBlocks (m.data Z80FS_SUPERBLOCK)) cwd
    (Z80FS_FIRST_DIR_ENTRY 0) hpath hend
    (by simp only [List.length_cons] at hlen; omega)
    (fun p hp => by
      by_cases h0 : getU16 (m.data p.1) p.2 = 0
      · rw [h0]; exact nameTest_zero m name
      · have ha := wf.entries _ (mem_activeEntries B m _ p hp h0)
        exact nameTest_other m name _ ha.1 ha.2.2.2)
  simp only [find, scanDirectory, hsb, readBlock_lt m cwd hcwd, hs]


/-- The used entries of a well-formed directory do not carry the name on a
medium that holds the nodes they address unchanged. -/
theorem active_nameTest (B : Nat) (m mf : Medium) (cwd : Nat) (name chain : List Nat)
    (wf : WellFormed B m cwd name chain) (hsize : mf.size = m.size)
    (hkeep : ∀ a ∈ activeEntries B m chain, mf.data a = m.data a) :
    ∀ a ∈ activeEntries B m chain, nameTest mf name a = .ok false := by
  intro a ha
  have h := wf.entries a ha
  exact nameTest_other mf name a (by rw [hsize]; exact h.1) (by rw [hkeep a ha]; exact h.2.2.2)

/-- After the new node went into the first unused slot of the directory, find
returns it. -/
theorem find_after_slot (B : Nat) (m mf : Medium) (cwd : Nat) (name chain : List Nat)
    (wf : WellFormed B m cwd name chain) (pre post o1 o2 : List Nat) (target off nb : Nat)
    (hC : chain = pre ++ target :: post)
    (hoffs : slotOffsets B (if pre = [] then Z80FS_FIRST_DIR_ENTRY 0
      else Z80FS_FIRST_EXT_ENTRY 0) = o1 ++ off :: o2)
    (hpre : ∀ p ∈ chainSlots B (Z80FS_FIRST_DIR_ENTRY 0) pre, getU16 (m.data p.1) p.2 ≠ 0)
    (ho1 : ∀ o ∈ o1, getU16 (m.data target) o ≠ 0)
    (hsize : mf.size = m.size)
    (hsame : ∀ block, block < m.size → getType (m.data block) ≠ Z80FS_FNODE_EMPTY →
      block ≠ target → mf.data block = m.data block)
    (htarget : mf.data target = setU16 (m.data target) off nb)
    (hnb0 : nb ≠ Z80FS_EMPTY) (hnblt : nb < m.size)
    (hname : getName (mf.data nb) = padName name) :
    find B mf cwd name = .ok nb := by
  obtain ⟨hE, hFE, hFI, hDI, hDE, hEM, hSB, hV⟩ := tag_consts
  obtain ⟨⟨rest, hr⟩, hlt, hpath, ⟨hne, hend⟩, hlen, hne0, hsbC⟩ :=
    wellFormed_facts B m cwd name chain wf
  have htC : target ∈ chain := by rw [hC]; simp
  have hnd : (pre ++ target :: post).Nodup := by rw [← hC]; exact wf.nodup
  have hdata : ∀ c ∈ chain, c ≠ target → mf.data c = m.data c := fun c hc hne =>
    hsame c (hlt c hc) (wf.blocks c hc).2 hne
  have hact := active_nameTest B m mf cwd name chain wf hsize (fun a ha => by
    have h := wf.entries a ha
    exact hsame a h.1 h.2.1 (fun heq => h.2.2.1 (by rw [heq]; exact htC)))
  have hsb0 : mf.data Z80FS_SUPERBLOCK = m.data Z80FS_SUPERBLOCK :=
    hsame _ wf.device.1 (by rw [superblock_tag B m cwd name chain wf, hV, hE]; decide)
      (fun heq => hsbC (by rw [heq]; exact htC))
  have hfirst : 4 ≤ (if pre = [] then Z80FS_FIRST_DIR_ENTRY 0 else Z80FS_FIRST_EXT_ENTRY 0) := by
    split <;> decide
  have hslots : chainSlots B (Z80FS_FIRST_DIR_ENTRY 0) chain =
      chainSlots B (Z80FS_FIRST_DIR_ENTRY 0) pre ++
        ((slotOffsets B (if pre = [] then Z80FS_FIRST_DIR_ENTRY 0
          else Z80FS_FIRST_EXT_ENTRY 0)).map (fun o => (target, o)) ++
          chainSlots B (Z80FS_FIRST_EXT_ENTRY 0) post) := by
    rw [hC, chainSlots_append]
    rfl
  have hmem := slotOffsets_mem_of_eq B _ off o1 o2 hoffs
  have hbefore := slotOffsets_before B _ off o1 o2 hoffs
  have hoff4 : 4 ≤ off := by
    have := mem_slotOffsets B _ off hmem.2
    omega
  have hnb16 : nb < 65536 := by have := wf.device.2; omega
  refine find_found B mf cwd name pre target off o1 o2 nb (by rw [hsize]; exact wf.device.1)
    (by rw [hsize]; exact hlt cwd (by rw [hr]; simp))
    (head_snoc_eq pre post target cwd rest (by rw [← hr, hC])) ?_ ?_ ?_ hoffs ?_ ?_ hnb0
    (by rw [hsize]; exact hnblt) hname
  · apply isPath_congr m mf hsize
    · intro c hc
      rw [List.dropLast_concat] at hc
      rw [hdata c (by rw [hC]; simp [hc]) (nodup_split pre post target hnd c hc)]
    · apply isPath_init m target post pre
      rw [← hC]; exact hpath
  · rw [hsb0]
    have := congrArg List.length hC
    simp only [List.length_append, List.length_cons] at this
    omega
  · intro p hp
    have hp1 := (mem_chainSlots B pre _ p hp (by decide)).1
    rw [hdata p.1 (by rw [hC]; simp [hp1]) (nodup_split pre post target hnd p.1 hp1)]
    exact hact _ (mem_activeEntries B m chain p (by rw [hslots]; simp [hp]) (hpre p hp))
  · intro o ho
    have h2 := hbefore o ho
    rw [htarget, getU16_setU16_ne _ _ _ _ (by omega) (by omega) (by omega)]
    exact hact _ (mem_activeEntries B m chain (target, o)
      (by rw [hslots]; simp [hmem.1 o ho]) (ho1 o ho))
  · rw [htarget]
    exact getU16_setU16 _ _ _ hnb16

/-- After the new node went into a new extend block at the tail of the
directory, find returns it. -/
theorem find_after_ext (B : Nat) (hB : 18 ≤ B) (m mf : Medium) (cwd : Nat)
    (name chain : List Nat) (wf : WellFormed B m cwd name chain) (hne : chain ≠ [])
    (nb ext : Nat)
    (hall : ∀ p ∈ chainSlots B (Z80FS_FIRST_DIR_ENTRY 0) chain, getU16 (m.data p.1) p.2 ≠ 0)
    (hsize : mf.size = m.size)
    (hsame : ∀ block, block < m.size → getType (m.data block) ≠ Z80FS_FNODE_EMPTY →
      block ≠ chain.getLast hne → mf.data block = m.data block)
    (htail : mf.data (chain.getLast hne) = setExtend (m.data (chain.getLast hne)) ext)
    (hext : mf.data ext =
      setU16 (encodeExtend Z80FS_FNODE_DIREXTEND) (Z80FS_FIRST_EXT_ENTRY 0) nb)
    (hext0 : ext ≠ Z80FS_EMPTY) (hextlt : ext < m.size)
    (hnb0 : nb ≠ Z80FS_EMPTY) (hnblt : nb < m.size)
    (hname : getName (mf.data nb) = padName name) :
    find B mf cwd name = .ok nb := by
  obtain ⟨hE, hFE, hFI, hDI, hDE, hEM, hSB, hV⟩ := tag_consts
  obtain ⟨⟨rest, hr⟩, hlt, hpath, ⟨_, hend⟩, hlen, hne0, hsbC⟩ :=
    wellFormed_facts B m cwd name chain wf
  have htC : chain.getLast hne ∈ chain := List.getLast_mem hne
  have hdata : ∀ c ∈ chain, c ≠ chain.getLast hne → mf.data c = m.data c := fun c hc hne =>
    hsame c (hlt c hc) (wf.blocks c hc).2 hne
  have hact := active_nameTest B m mf cwd name chain wf hsize (fun a ha => by
    have h := wf.entries a ha
    exact hsame a h.1 h.2.1 (fun heq => h.2.2.1 (by rw [heq]; exact htC)))
  have hsb0 : mf.data Z80FS_SUPERBLOCK = m.data Z80FS_SUPERBLOCK :=
    hsame _ wf.device.1 (by rw [superblock_tag B m cwd name chain wf, hV, hE]; decide)
      (fun heq => hsbC (by rw [heq]; exact htC))
  have hnb16 : nb < 65536 := by have := wf.device.2; omega
  have hext16 : ext < 65536 := by have := wf.device.2; omega
  have hsplit : chain.dropLast ++ [chain.getLast hne] = chain := List.dropLast_append_getLast hne
  have hnd : (chain.dropLast ++ chain.getLast hne :: []).Nodup := by
    rw [hsplit]; exact wf.nodup
  obtain ⟨o2, hoffs⟩ := slotOffsets_ext B hB
  refine find_found B mf cwd name chain ext (Z80FS_FIRST_EXT_ENTRY 0) [] o2 nb
    (by rw [hsize]; exact wf.device.1)
    (by rw [hsize]; exact hlt cwd (by rw [hr]; simp))
    (by simp [hr]) ?_ ?_ ?_ (by simp only [hne, if_false]; exact hoffs) (by simp) ?_ hnb0
    (by rw [hsize]; exact hnblt) hname
  · apply isPath_snoc mf ext hext0 (by rw [hsize]; exact hextlt) chain hne
    · apply isPath_congr m mf hsize chain _ hpath
      intro c hc
      rw [hdata c (List.mem_of_mem_dropLast hc) (nodup_split _ [] _ hnd c hc)]
    · rw [htail]
      exact getExtend_setExtend _ _ hext16
  · rw [hsb0]; exact hlen
  · intro p hp
    obtain ⟨hp1, hp2⟩ := mem_chainSlots B chain _ p hp (by decide)
    have hsame2 : getU16 (mf.data p.1) p.2 = getU16 (m.data p.1) p.2 := by
      by_cases hpt : p.1 = chain.getLast hne
      · rw [hpt, htail]
        exact getU16_setU16_ne _ 1 _ _ (by omega) (by omega) (by omega)
      · rw [hdata p.1 hp1 hpt]
    rw [hsame2]
    exact hact _ (mem_activeEntries B m chain p hp (hall p hp))
  · rw [hext]
    exact getU16_setU16 _ _ _ hnb16


theorem writing_created (B : Nat) (hB : 18 ≤ B) (m1 : Medium) (nb : Nat) (name : List Nat)
    (hdev : 0 < m1.size ∧ m1.size ≤ 65536)
    (hsb : getType (m1.data Z80FS_SUPERBLOCK) ≠ Z80FS_FNODE_EMPTY ∧
      numBlocks (m1.data Z80FS_SUPERBLOCK) ≤ m1.size)
    (hnb0 : nb ≠ 0) (hnblt : nb < m1.size)
    (hnode : m1.data nb = encodeNode Z80FS_FNODE_FILE name 0) :
    Writing B m1 (writeHandle nb (encodeNode Z80FS_FNODE_FILE name 0)) := by
  have htag : getType (encodeNode Z80FS_FNODE_FILE name 0) ≠ Z80FS_FNODE_EMPTY := by
    rw [getType_eq, encodeNode_apply]
    simp [Z80FS_FNODE_FILE, Z80FS_FNODE_EMPTY]
  exact
    { mode := rfl
      device := hdev
      superblock := hsb
      cur_ne := hnb0
      cur_lt := hnblt
      cur_used := by show getType (m1.data nb) ≠ _; rw [hnode]; exact htag
      buf_used := htag
      node_lt := hnblt
      node_used := by show getType (m1.data nb) ≠ _; rw [hnode]; exact htag
      ptr_le := by show Z80FS_FIRST_FILE_BYTE 0 ≤ B; rw [first_consts.2.1]; exact hB
      ptr_ge := by show 4 ≤ Z80FS_FIRST_FILE_BYTE 0; decide
      ptr_node := fun _ => by show 18 ≤ Z80FS_FIRST_FILE_BYTE 0; decide
      size_lt := by show (0 : Nat) < 65536; omega }

/-- Creating a file with a new name on a well-formed medium with two free
blocks succeeds; the handle is ready for writing, and find returns the node on
every later medium that keeps the blocks in use and the name of the node. -/
theorem fs_create_spec (B : Nat) (hB : 18 ≤ B) (m : Medium) (cwd : Nat) (f : file_t)
    (name chain : List Nat) (wf : WellFormed B m cwd name chain)
    (hfree : 2 ≤ freeCount m) :
    ∃ m1 nb, fs_create B m cwd f name =
        (error_t.Z80FS_OK, m1, writeHandle nb (encodeNode Z80FS_FNODE_FILE name 0)) ∧
      Writing B m1 (writeHandle nb (encodeNode Z80FS_FNODE_FILE name 0)) ∧
      freeCount m ≤ freeCount m1 + 2 ∧
      ∀ mf, mf.size = m1.size →
        (∀ block, block < m1.size → getType (m1.data block) ≠ Z80FS_FNODE_EMPTY →
          block ≠ nb → mf.data block = m1.data block) →
        getName (mf.data nb) = padName name → find B mf cwd name = .ok nb := by
  obtain ⟨hE, hFE, hFI, hDI, hDE, hEM, hSB, hV⟩ := tag_consts
  obtain ⟨⟨rest, hr⟩, hlt, hpath, ⟨hne, hend⟩, hlen, hne0, hsbC⟩ :=
    wellFormed_facts B m cwd name chain wf
  have hfind := find_notfound B m cwd name chain wf
  have hsbtag : getType (m.data Z80FS_SUPERBLOCK) ≠ Z80FS_FNODE_EMPTY := by
    rw [superblock_tag B m cwd name chain wf, hV, hE]; decide
  obtain ⟨nb, ha, hnbn, hnbE⟩ := allocate_spec m wf.device.1 wf.superblock.2 (by omega)
  have hnblt : nb < m.size := by have := wf.superblock.2; omega
  have hnb0 : nb ≠ 0 := by
    intro h
    rw [h, ← hSB] at hnbE
    exact hsbtag hnbE
  have hnbC : nb ∉ chain := fun h => (wf.blocks nb h).2 hnbE
  have hnode_tag : getType (encodeNode Z80FS_FNODE_FILE name 0) ≠ Z80FS_FNODE_EMPTY := by
    rw [getType_eq, encodeNode_apply]
    simp [Z80FS_FNODE_FILE, Z80FS_FNODE_EMPTY]
  have hw0 := writeBlock_lt m nb (encodeNode Z80FS_FNODE_FILE name 0) hnblt
  have hm0 : (m.put nb (encodeNode Z80FS_FNODE_FILE name 0)).data Z80FS_SUPERBLOCK =
      m.data Z80FS_SUPERBLOCK := put_data_ne _ _ _ _ (by rw [hSB]; exact Ne.symm hnb0)
  have hmC : ∀ c ∈ chain, (m.put nb (encodeNode Z80FS_FNODE_FILE name 0)).data c = m.data c :=
    fun c hc => put_data_ne _ _ _ _ (fun h => hnbC (by rw [← h]; exact hc))
  have hf1 := freeCount_put_le m nb (encodeNode Z80FS_FNODE_FILE name 0) hnb0
  have hlast : chain.getLast hne ∈ chain := List.getLast_mem hne
  subst hr
  have hpl := placeEntry_spec B (m.put nb (encodeNode Z80FS_FNODE_FILE name 0)) cwd nb rest
    wf.device.1 (by rw [hm0]; exact wf.superblock.2) (by omega)
    (isPath_congr m (m.put nb (encodeNode Z80FS_FNODE_FILE name 0)) rfl _
      (fun c hc => by rw [hmC c (List.mem_of_mem_dropLast hc)]) hpath)
    (by rw [hmC _ hlast]; exact hend)
    (by rw [hm0]; simp only [List.length_cons] at hlen; omega)
    (fun c hc => hlt c hc)
  have hfile : Z80FS_FNODE_FILE ≠ Z80FS_FNODE_DIRECTORY := by decide
  have hcreate : ∀ m1, placeEntry B (m.put nb (encodeNode Z80FS_FNODE_FILE name 0)) cwd nb =
      (error_t.Z80FS_OK, m1) →
      fs_create B m cwd f name =
        (error_t.Z80FS_OK, m1, writeHandle nb (encodeNode Z80FS_FNODE_FILE name 0)) := by
    intro m1 h
    simp only [fs_create, insert, hfind, ha, hw0, h, hfile, if_false, ne_eq, not_true_eq_false]
  rcases hpl with ⟨pre, target, post, o1, off, o2, e1, e2, e3, e4, e5, hp⟩ |
    ⟨hall, ext, hextn, hextE, hp⟩
  · -- the entry goes into the first unused slot
    have htC : target ∈ cwd :: rest := by rw [e1]; simp
    have htnb : target ≠ nb := fun h => hnbC (by rw [← h]; exact htC)
    have ht0 : target ≠ 0 := hne0 target htC
    have hoff4 : 4 ≤ off := by
      have h1 := (slotOffsets_mem_of_eq B _ off o1 o2 e2).2
      have h2 := mem_slotOffsets B _ off h1
      have : 4 ≤ (if pre = [] then Z80FS_FIRST_DIR_ENTRY 0 else Z80FS_FIRST_EXT_ENTRY 0) := by
        split <;> decide
      omega
    rw [hmC target htC] at hp
    have hm1 : ∀ block, block ≠ nb → block ≠ target →
        ((m.put nb (encodeNode Z80FS_FNODE_FILE name 0)).put target
          (setU16 (m.data target) off nb)).data block = m.data block := fun block h1 h2 => by
      rw [put_data_ne _ _ _ _ h2, put_data_ne _ _ _ _ h1]
    have hm1t : ((m.put nb (encodeNode Z80FS_FNODE_FILE name 0)).put target
        (setU16 (m.data target) off nb)).data target = setU16 (m.data target) off nb :=
      put_data_same _ _ _
    have hm1n : ((m.put nb (encodeNode Z80FS_FNODE_FILE name 0)).put target
        (setU16 (m.data target) off nb)).data nb = encodeNode Z80FS_FNODE_FILE name 0 := by
      rw [put_data_ne _ _ _ _ (Ne.symm htnb), put_data_same]
    have httag : getType (setU16 (m.data target) off nb) ≠ Z80FS_FNODE_EMPTY := by
      have h := (wf.blocks target htC).2
      rw [getType_eq] at h ⊢
      rw [setU16_apply]
      have h1 : (0 : Nat) ≠ off + 1 := by omega
      have h2 : (0 : Nat) ≠ off := by omega
      simpa [h1, h2] using h
    refine ⟨_, nb, hcreate _ hp, ?_, ?_, ?_⟩
    · exact writing_created B hB _ nb name wf.device
        (by rw [hm1 _ (by rw [hSB]; exact Ne.symm hnb0) (by rw [hSB]; exact Ne.symm ht0)]
            exact ⟨hsbtag, wf.superblock.2⟩)
        hnb0 hnblt hm1n
    · have hf2 := freeCount_put_used (m.put nb (encodeNode Z80FS_FNODE_FILE name 0)) target
        (setU16 (m.data target) off nb) ht0
        (by rw [hmC target htC]; exact (wf.blocks target htC).2)
      omega
    · intro mf hsz hsame hnm
      have hpre : ∀ c ∈ pre, c ∈ cwd :: rest := fun c hc => by rw [e1]; simp [hc]
      refine find_after_slot B m mf cwd name (cwd :: rest) wf pre post o1 o2 target off nb e1 e2
        (fun p hp2 => by
          have h := e3 p hp2
          rwa [hmC p.1 (hpre _ (mem_chainSlots B pre _ p hp2 (by decide)).1)] at h)
        (fun o ho => by
          have h := e4 o ho
          rwa [hmC target htC] at h)
        hsz ?_ ?_ (by rw [hEM]; exact hnb0) hnblt hnm
      · intro block h1 h2 h3
        have hbn : block ≠ nb := fun h => h2 (by rw [h]; exact hnbE)
        rw [hsame block h1 (by rw [hm1 block hbn h3]; exact h2) hbn, hm1 block hbn h3]
      · rw [hsame target (hlt target htC) (by rw [hm1t]; exact httag) htnb, hm1t]
  · -- every slot is used: the entry goes into a new extend block
    have hlastC : (cwd :: rest).getLast (List.cons_ne_nil _ _) ∈ cwd :: rest :=
      List.getLast_mem _
    have hextnb : ext ≠ nb := by
      intro h
      rw [h, put_data_same] at hextE
      exact hnode_tag hextE
    rw [put_data_ne _ _ _ _ hextnb] at hextE
    rw [hm0] at hextn
    have hextlt : ext < m.size := by have := wf.superblock.2; omega
    have hext0 : ext ≠ 0 := by
      intro h
      rw [h, ← hSB] at hextE
      exact hsbtag hextE
    have hextC : ext ∉ cwd :: rest := fun h => (wf.blocks ext h).2 hextE
    have htnb : (cwd :: rest).getLast (List.cons_ne_nil _ _) ≠ nb :=
      fun h => hnbC (by rw [← h]; exact hlastC)
    have htext : (cwd :: rest).getLast (List.cons_ne_nil _ _) ≠ ext :=
      fun h => hextC (by rw [← h]; exact hlastC)
    have ht0 : (cwd :: rest).getLast (List.cons_ne_nil _ _) ≠ 0 := hne0 _ hlastC
    rw [hmC _ hlastC] at hp
    have hm1 : ∀ block, block ≠ nb → block ≠ ext →
        block ≠ (cwd :: rest).getLast (List.cons_ne_nil _ _) →
        (((m.put nb (encodeNode Z80FS_FNODE_FILE name 0)).put ext
          (setU16 (encodeExtend Z80FS_FNODE_DIREXTEND) (Z80FS_FIRST_EXT_ENTRY 0) nb)).put
          ((cwd :: rest).getLast (List.cons_ne_nil _ _))
          (setExtend (m.data ((cwd :: rest).getLast (List.cons_ne_nil _ _))) ext)).data block =
          m.data block := fun block h1 h2 h3 => by
      rw [put_data_ne _ _ _ _ h3, put_data_ne _ _ _ _ h2, put_data_ne _ _ _ _ h1]
    have hm1t := put_data_same ((m.put nb (encodeNode Z80FS_FNODE_FILE name 0)).put ext
      (setU16 (encodeExtend Z80FS_FNODE_DIREXTEND) (Z80FS_FIRST_EXT_ENTRY 0) nb))
      ((cwd :: rest).getLast (List.cons_ne_nil _ _))
      (setExtend (m.data ((cwd :: rest).getLast (List.cons_ne_nil _ _))) ext)
    have hm1e : (((m.put nb (encodeNode Z80FS_FNODE_FILE name 0)).put ext
          (setU16 (encodeExtend Z80FS_FNODE_DIREXTEND) (Z80FS_FIRST_EXT_ENTRY 0) nb)).put
          ((cwd :: rest).getLast (List.cons_ne_nil _ _))
          (setExtend (m.data ((cwd :: rest).getLast (List.cons_ne_nil _ _))) ext)).data ext =
        setU16 (encodeExtend Z80FS_FNODE_DIREXTEND) (Z80FS_FIRST_EXT_ENTRY 0) nb := by
      rw [put_data_ne _ _ _ _ (Ne.symm htext), put_data_same]
    have hm1n : (((m.put nb (encodeNode Z80FS_FNODE_FILE name 0)).put ext
          (setU16 (encodeExtend Z80FS_FNODE_DIREXTEND) (Z80FS_FIRST_EXT_ENTRY 0) nb)).put
          ((cwd :: rest).getLast (List.cons_ne_nil _ _))
          (setExtend (m.data ((cwd :: rest).getLast (List.cons_ne_nil _ _))) ext)).data nb =
        encodeNode Z80FS_FNODE_FILE name 0 := by
      rw [put_data_ne _ _ _ _ (Ne.symm htnb), put_data_ne _ _ _ _ (Ne.symm hextnb),
        put_data_same]
    have httag : getType (setExtend (m.data ((cwd :: rest).getLast (List.cons_ne_nil _ _))) ext) ≠
        Z80FS_FNODE_EMPTY := by
      have h := (wf.blocks _ hlastC).2
      rw [getType_eq] at h ⊢
      rw [setExtend_apply]
      simpa using h
    have hetag : getType (setU16 (encodeExtend Z80FS_FNODE_DIREXTEND)
        (Z80FS_FIRST_EXT_ENTRY 0) nb) ≠ Z80FS_FNODE_EMPTY := by
      rw [getType_eq, setU16_apply, encodeExtend_apply, first_consts.2.2.1]
      simp [Z80FS_FNODE_DIREXTEND, Z80FS_FNODE_EMPTY]
    refine ⟨_, nb, hcreate _ hp, ?_, ?_, ?_⟩
    · exact writing_created B hB _ nb name wf.device
        (by rw [hm1 _ (by rw [hSB]; exact Ne.symm hnb0) (by rw [hSB]; exact Ne.symm hext0)
              (by rw [hSB]; exact Ne.symm ht0)]
            exact ⟨hsbtag, wf.superblock.2⟩)
        hnb0 hnblt hm1n
    · have hf2 := freeCount_put_le (m.put nb (encodeNode Z80FS_FNODE_FILE name 0)) ext
        (setU16 (encodeExtend Z80FS_FNODE_DIREXTEND) (Z80FS_FIRST_EXT_ENTRY 0) nb) hext0
      have hf3 := freeCount_put_used ((m.put nb (encodeNode Z80FS_FNODE_FILE name 0)).put ext
        (setU16 (encodeExtend Z80FS_FNODE_DIREXTEND) (Z80FS_FIRST_EXT_ENTRY 0) nb))
        ((cwd :: rest).getLast (List.cons_ne_nil _ _))
        (setExtend (m.data ((cwd :: rest).getLast (List.cons_ne_nil _ _))) ext) ht0
        (by rw [put_data_ne _ _ _ _ htext, hmC _ hlastC]; exact (wf.blocks _ hlastC).2)
      omega
    · intro mf hsz hsame hnm
      refine find_after_ext B hB m mf cwd name (cwd :: rest) wf (List.cons_ne_nil _ _) nb ext
        (fun p hp2 => by
          have h := hall p hp2
          rwa [hmC p.1 (mem_chainSlots B _ _ p hp2 (by decide)).1] at h)
        hsz ?_ ?_ ?_ (by rw [hEM]; exact hext0) hextlt (by rw [hEM]; exact hnb0) hnblt hnm
      · intro block h1 h2 h3
        have hbn : block ≠ nb := fun h => h2 (by rw [h]; exact hnbE)
        have hbe : block ≠ ext := fun h => h2 (by rw [h]; exact hextE)
        rw [hsame block h1 (by rw [hm1 block hbn hbe h3]; exact h2) hbn, hm1 block hbn hbe h3]
      · rw [hsame _ (hlt _ hlastC) (by rw [hm1t]; exact httag) htnb, hm1t]
      · rw [hsame ext hextlt (by rw [hm1e]; exact hetag) hextnb, hm1e]


/-- Closing a handle in write mode succeeds and leaves a medium that holds what
the file engine saw, with the size stored in the file node. -/
theorem fs_close_spec (B : Nat) (m : Medium) (f : file_t) (hw : Writing B m f) :
    ∃ m3, fs_close m f = (error_t.Z80FS_OK, m3) ∧ Flushed m3 m f ∧
      getSize (m3.data f.file_block) = f.size := by
  by_cases hc : f.current_block = f.file_block
  · refine ⟨m.put f.file_block (setSize f.block_data f.size), ?_, ?_, ?_⟩
    · simp only [fs_close, hw.mode, hc, if_true,
        writeBlock_lt m f.file_block _ hw.node_lt]
    · refine ⟨rfl, ?_⟩
      intro block off hoff
      by_cases hb : block = f.file_block
      · obtain ⟨h16, h17⟩ := hoff hb
        rw [hb, put_data_same, setSize_apply]
        simp [view, hc, h16, h17]
      · rw [put_data_ne _ _ _ _ hb]
        simp [view, hc, hb]
    · rw [put_data_same]
      exact getSize_setSize _ _ hw.size_lt
  · have hc2 : f.file_block ≠ f.current_block := fun h => hc h.symm
    have h1 := writeBlock_lt m f.current_block f.block_data hw.cur_lt
    have h2 := readBlock_lt (m.put f.current_block f.block_data) f.file_block
      (by rw [put_size]; exact hw.node_lt)
    rw [put_data_ne _ _ _ _ hc2] at h2
    have h3 := writeBlock_lt (m.put f.current_block f.block_data) f.file_block
      (setSize (m.data f.file_block) f.size) (by rw [put_size]; exact hw.node_lt)
    refine ⟨(m.put f.current_block f.block_data).put f.file_block
      (setSize (m.data f.file_block) f.size), ?_, ?_, ?_⟩
    · simp only [fs_close, hw.mode, hc, if_true, if_false, h1, h2, h3]
    · refine ⟨rfl, ?_⟩
      intro block off hoff
      by_cases hb : block = f.file_block
      · obtain ⟨h16, h17⟩ := hoff hb
        rw [hb, put_data_same, setSize_apply]
        simp [view, hc2, h16, h17]
      · rw [put_data_ne _ _ _ _ hb]
        by_cases hb2 : block = f.current_block
        · rw [hb2, put_data_same]
          simp [view]
        · rw [put_data_ne _ _ _ _ hb2]
          simp [view, hb2]
    · rw [put_data_same]
      exact getSize_setSize _ _ hw.size_lt

theorem toInt16_small (n : Nat) (h : n ≤ 32767) : toInt16 (n : Int) = (n : Int) := by
  unfold toInt16
  omega

/-- The return value of fs_read is an int16_t. -/
theorem fs_read_range (B : Nat) (m : Medium) (f : file_t) (size : Int) :
    -32768 ≤ (fs_read B m f size).1 ∧ (fs_read B m f size).1 ≤ 32767 := by
  unfold fs_read
  split
  rename_i e f1 bs _
  split
  · unfold toInt16
    simp only
    omega
  · simp only
    cases e <;> simp [error_t.code]

/-- On a well-formed medium with enough free blocks the four calls before
fs_read succeed: the file is created, written and closed, and opening it gives
a handle with the size written, from which reading byte by byte gives the
sequence back. -/
theorem roundTrip_calls (B : Nat) (hB : 18 ≤ B) (m : Medium) (cwd : Nat) (f : file_t)
    (name chain bs : List Nat) (wf : WellFormed B m cwd name chain)
    (hname : ∀ c ∈ name, c < 256) (hbytes : ∀ b ∈ bs, b < 256) (hlen : bs.length < 65536)
    (hfree : 2 ≤ freeCount m) (hroom : bs.length ≤ (B - 18) + (freeCount m - 2) * (B - 4)) :
    ∃ m1 h1 m2 f2 m3 r,
      fs_create B m cwd f name = (error_t.Z80FS_OK, m1, h1) ∧
      fs_write B m1 h1 bs bs.length = (error_t.Z80FS_OK, m2, f2) ∧
      fs_close m2 f2 = (error_t.Z80FS_OK, m3) ∧
      fs_open B m3 cwd f2 name = (error_t.Z80FS_OK, r) ∧
      r.size = bs.length ∧
      ∃ r2, readBytesLoop B m3 bs.length r = (error_t.Z80FS_OK, r2, bs) := by
  obtain ⟨hFB, hFF, -, -⟩ := first_consts
  obtain ⟨m1, nb, hcreate, hw1, hf1, hstable⟩ := fs_create_spec B hB m cwd f name chain wf hfree
  obtain ⟨m2, f2, hwr, hw2, hg, hsz, -, hread⟩ := write_then_read B hB bs m1
    (writeHandle nb (encodeNode Z80FS_FNODE_FILE name 0)) (freeCount m - 2) hw1 hbytes
    (by omega) (by show bs.length ≤ (B - Z80FS_FIRST_FILE_BYTE 0) + _; rw [hFF]; exact hroom)
  have hnode : f2.file_block = nb := hg.node_eq
  have hwrite : fs_write B m1 (writeHandle nb (encodeNode Z80FS_FNODE_FILE name 0)) bs
      bs.length = (error_t.Z80FS_OK, m2, f2) := by
    have ht : toUInt16 bs.length = bs.length := by unfold toUInt16; omega
    simp only [fs_write, ht, List.take_length]
    exact hwr
  obtain ⟨m3, hclose, hfl, hsize⟩ := fs_close_spec B m2 f2 hw2
  rw [hnode] at hsize
  have hm3size : m3.size = m1.size := by rw [hfl.size_eq, hg.size_eq]
  have hkept : ∀ i, i < 18 → i ≠ 1 → i ≠ 2 → i ≠ 16 → i ≠ 17 →
      m3.data nb i = encodeNode Z80FS_FNODE_FILE name 0 i := by
    intro i h18 h1 h2 h16 h17
    rw [hfl.same nb i (fun _ => ⟨h16, h17⟩)]
    exact hg.kept i (by show i < Z80FS_FIRST_FILE_BYTE 0; rw [hFF]; exact h18) h1 h2
  have hfind : find B m3 cwd name = .ok nb := by
    apply hstable m3 hm3size
    · intro block h1 h2 h3
      have hfr := hg.frame block h1 h2 h3
      funext off
      rw [hfl.same block off (fun h => absurd (h.trans hnode) h3)]
      simp only [view, hfr.2, if_false]
      rw [hfr.1]
    · rw [← getName_encodeNode Z80FS_FNODE_FILE name 0 hname]
      exact getName_congr _ _ (fun i h3 h15 =>
        hkept i (by omega) (by omega) (by omega) (by omega) (by omega))
  have hnblt : nb < m3.size := by rw [hm3size]; exact hw1.node_lt
  have htype : getType (m3.data nb) = Z80FS_FNODE_FILE := by
    rw [getType_eq, hkept 0 (by omega) (by omega) (by omega) (by omega) (by omega),
      encodeNode_apply]
    simp [Z80FS_FNODE_FILE]
  have hopen : fs_open B m3 cwd f2 name = (error_t.Z80FS_OK, readHandle nb (m3.data nb)) := by
    have hnd : Z80FS_FNODE_FILE ≠ Z80FS_FNODE_DIRECTORY := by decide
    simp only [fs_open, hfind, readBlock_lt m3 nb hnblt, htype, hnd, if_false, ne_eq,
      not_true_eq_false]
  have hrsize : (readHandle nb (m3.data nb)).size = bs.length := by
    show getSize (m3.data nb) = bs.length
    rw [hsize, hsz]
    show (0 + bs.length) % 65536 = bs.length
    omega
  obtain ⟨r2, hrd, -, -⟩ := hread m3 hfl (readHandle nb (m3.data nb))
    ⟨rfl, rfl, rfl, rfl⟩ (by rw [hrsize])
  exact ⟨m1, _, m2, f2, m3, _, hcreate, hwrite, hclose, hopen, hrsize, r2, hrd⟩

/-- The round trip on a well-formed medium with enough free blocks, for at most
32767 bytes. -/
theorem roundTrip_spec (B : Nat) (hB : 18 ≤ B) (m : Medium) (cwd : Nat) (f : file_t)
    (name chain bs : List Nat) (wf : WellFormed B m cwd name chain)
    (hname : ∀ c ∈ name, c < 256) (hbytes : ∀ b ∈ bs, b < 256) (hlen : bs.length ≤ 32767)
    (hfree : 2 ≤ freeCount m) (hroom : bs.length ≤ (B - 18) + (freeCount m - 2) * (B - 4)) :
    roundTrip B m cwd f name bs =
      ((error_t.Z80FS_OK, error_t.Z80FS_OK, error_t.Z80FS_OK, error_t.Z80FS_OK),
        (bs.length : Int), bs) := by
  obtain ⟨m1, h1, m2, f2, m3, r, hcreate, hwrite, hclose, hopen, -, r2, hrd⟩ :=
    roundTrip_calls B hB m cwd f name chain bs wf hname hbytes (by omega) hfree hroom
  have hgot : fs_read B m3 r (bs.length : Int) = ((bs.length : Int), r2, bs) := by
    simp only [fs_read, toInt16_small bs.length hlen, Int.toNat_ofNat, hrd, true_or, if_true]
  simp only [roundTrip, hcreate, hwrite, hclose, hopen, hgot]


/-- A size of 32768 does not fit the int16_t parameter of fs_read: it arrives
as -32768 and nothing is read. -/
theorem fs_read_32768 (B : Nat) (m : Medium) (f : file_t) :
    fs_read B m f ((32768 : Nat) : Int) = (0, f, []) := by
  have h : (toInt16 ((32768 : Nat) : Int)).toNat = 0 := by decide
  simp only [fs_read, h, readBytesLoop, true_or, if_true, List.length_nil]
  rfl

/-! ## Theorems: the round trip of a file -/

set_option maxRecDepth 100000 in
/-- Claim C8, as stated, fails for a sequence of 32768 bytes. On a freshly
formatted medium of 36 blocks of 1024 bytes (well-formed, the name new, 34 free
blocks where 33 are needed) fs_create, fs_write of the 32768 bytes, fs_close and
fs_open all succeed, but fs_read of 32768 bytes returns 0 and yields no byte,
not 32768 and the sequence: the size parameter and the return value of fs_read
are int16_t, which ends at 32767. -/
theorem round_trip_fails_at_32768 :
    WellFormed (Z80FS_GET_BLOCKSIZE Z80FS_BS1024) (blankMedium Z80FS_BS1024 36) Z80FS_ROOT_DIR
      [65] [Z80FS_ROOT_DIR] ∧
    EnoughFree (Z80FS_GET_BLOCKSIZE Z80FS_BS1024) (blankMedium Z80FS_BS1024 36) 32768 ∧
    (List.replicate 32768 0).length = 32768 ∧
    (∀ b ∈ List.replicate 32768 0, b < 256) ∧
    roundTrip (Z80FS_GET_BLOCKSIZE Z80FS_BS1024) (blankMedium Z80FS_BS1024 36) Z80FS_ROOT_DIR
      closedHandle [65] (List.replicate 32768 0) =
      ((error_t.Z80FS_OK, error_t.Z80FS_OK, error_t.Z80FS_OK, error_t.Z80FS_OK), 0, []) := by
  have hwf : WellFormed (Z80FS_GET_BLOCKSIZE Z80FS_BS1024) (blankMedium Z80FS_BS1024 36)
      Z80FS_ROOT_DIR [65] [Z80FS_ROOT_DIR] :=
    ⟨by decide, by decide, by decide, by decide, by show getExtend _ = _; decide,
      by decide, by decide, by decide⟩
  have hfree : EnoughFree (Z80FS_GET_BLOCKSIZE Z80FS_BS1024) (blankMedium Z80FS_BS1024 36)
      32768 := by unfold EnoughFree; decide
  have hbytes : ∀ b ∈ List.replicate 32768 0, b < 256 :=
    fun b hb => by rw [List.eq_of_mem_replicate hb]; decide
  have hlen : (List.replicate 32768 0).length = 32768 := List.length_replicate _ _
  refine ⟨hwf, hfree, hlen, hbytes, Prod.ext ?_ ?_⟩
  · obtain ⟨m1, h1, m2, f2, m3, r, hcreate, hwrite, hclose, hopen, -, -⟩ :=
      roundTrip_calls (Z80FS_GET_BLOCKSIZE Z80FS_BS1024) (by decide)
        (blankMedium Z80FS_BS1024 36) Z80FS_ROOT_DIR closedHandle [65] [Z80FS_ROOT_DIR]
        (List.replicate 32768 0) hwf (by decide) hbytes (by rw [hlen]; decide)
        (by decide) (by rw [hlen]; decide)
    simp only [roundTrip, hcreate, hwrite, hclose, hopen]
  · simp only [roundTrip, List.length_replicate, fs_read_32768]

/-- Claim C8, amended. For every byte sequence of length N <= 32767 (N = 0, N
one payload of a block, N so large that an extend chain is needed), on a
well-formed medium on which the name is new in the current directory and which
has enough free blocks: fs_create, fs_write of the N bytes, fs_close, then
fs_open of the same name and fs_read of N bytes all succeed, fs_read returns N
and yields the identical byte sequence. -/
theorem file_round_trip (c : Nat) (hc : c ∈ blockSizeClasses) (m : Medium) (current_dir : Nat)
    (f : file_t) (name chain bytes : List Nat)
    (hwf : WellFormed (Z80FS_GET_BLOCKSIZE c) m current_dir name chain)
    (hname : ∀ ch ∈ name, ch < 256) (hbytes : ∀ b ∈ bytes, b < 256)
    (hlen : bytes.length ≤ 32767)
    (hfree : EnoughFree (Z80FS_GET_BLOCKSIZE c) m bytes.length) :
    roundTrip (Z80FS_GET_BLOCKSIZE c) m current_dir f name bytes =
      ((error_t.Z80FS_OK, error_t.Z80FS_OK, error_t.Z80FS_OK, error_t.Z80FS_OK),
        (bytes.length : Int), bytes) := by
  have hB : 18 ≤ Z80FS_GET_BLOCKSIZE c := by
    simp only [blockSizeClasses, List.mem_cons, List.mem_singleton, List.not_mem_nil,
      or_false] at hc
    rcases hc with h | h | h | h | h | h <;> subst h <;> decide
  have h18 : sizeof z80fs_file_t = 18 := by decide
  have h4 : sizeof z80fs_extend_t = 4 := by decide
  obtain ⟨h2, hroom⟩ := hfree
  rw [h18, h4] at hroom
  exact roundTrip_spec _ hB m current_dir f name chain bytes hwf hname hbytes hlen h2 hroom

/-- Witness for claim C8: 20 bytes, six more than the payload of the file node,
on a freshly formatted medium of 8 blocks of 32 bytes. -/
theorem file_round_trip_witness :
    roundTrip (Z80FS_GET_BLOCKSIZE Z80FS_BS32) (blankMedium Z80FS_BS32 8) Z80FS_ROOT_DIR
        closedHandle [65]
        [1, 2, 3, 4, 5, 6, 7, 8, 9, 10, 11, 12, 13, 14, 15, 16, 17, 18, 19, 20] =
      ((error_t.Z80FS_OK, error_t.Z80FS_OK, error_t.Z80FS_OK, error_t.Z80FS_OK), 20,
        [1, 2, 3, 4, 5, 6, 7, 8, 9, 10, 11, 12, 13, 14, 15, 16, 17, 18, 19, 20]) :=
  file_round_trip Z80FS_BS32 (by decide) (blankMedium Z80FS_BS32 8) Z80FS_ROOT_DIR closedHandle
    [65] [Z80FS_ROOT_DIR] [1, 2, 3, 4, 5, 6, 7, 8, 9, 10, 11, 12, 13, 14, 15, 16, 17, 18, 19, 20]
    ⟨by decide, by decide, by decide, by decide, by show getExtend _ = _; decide, by decide,
      by decide, by decide⟩
    (by decide) (by decide) (by decide) (by unfold EnoughFree; decide)


end Z80FS
